import Mathlib

/-!
Verification of the sales-forecast ETL pipeline (`src/logic/calculator/etl.py`
and the schema objects under `src/logic/schemas/`) against its natural-language
specification.

The development shallowly embeds the pipeline: pandas DataFrames become lists
of typed rows, `groupby` becomes grouping over a sorted list of distinct keys
(pandas groups with `sort=True`), `merge` becomes a nested-loop join, and the
weekly `pd.Grouper(freq="W")` becomes bucketing of civil dates into
Sunday-ending windows.  Timestamps are modelled as civil dates: the weekly
grouper bins by calendar date (bin edges sit at end of day), so time of day
never affects a bucket.  The civil-date/day-number conversions mirror the
proleptic-Gregorian arithmetic that the datetime library performs when it
formats a `datetime64` value with `strftime("%Y-%m-%d")`.
-/

namespace SalesETL

/-! ## Calendar arithmetic

Day numbers count days since 0000-03-01 of the proleptic Gregorian calendar
(so every leap day is the last day of a shifted year, which keeps all
quantities in `Nat`).  `daysFromCivil` and `civilFromDays` are the standard
era-based conversions used by datetime implementations. -/

/-- Civil (proleptic Gregorian) calendar date. -/
structure Date where
  year : Nat
  month : Nat
  day : Nat
deriving DecidableEq, Repr

/-- Gregorian leap-year test. -/
def isLeap (y : Nat) : Bool :=
  (y % 4 == 0 && y % 100 != 0) || y % 400 == 0

/-- Number of days in a month of a given year. -/
def monthLength (y m : Nat) : Nat :=
  if m = 2 then (if isLeap y then 29 else 28)
  else if m = 4 ∨ m = 6 ∨ m = 9 ∨ m = 11 then 30
  else 31

/-- Validity of a civil date. -/
def Date.valid (c : Date) : Prop :=
  1 ≤ c.month ∧ c.month ≤ 12 ∧ 1 ≤ c.day ∧ c.day ≤ monthLength c.year c.month

instance (c : Date) : Decidable c.valid := by
  unfold Date.valid; infer_instance

/-- Day number (days since 0000-03-01) of a civil date, via the standard
era-based formula for the proleptic Gregorian calendar. -/
def daysFromCivil (c : Date) : Nat :=
  let y := c.year - (if c.month ≤ 2 then 1 else 0)
  let era := y / 400
  let yoe := y % 400
  let mp := (c.month + 9) % 12
  let doy := (153 * mp + 2) / 5 + c.day - 1
  let doe := yoe * 365 + yoe / 4 + doy - yoe / 100
  era * 146097 + doe

/-- First day number, within a 400-year era, of the shifted year `y`
(shifted years start on 1 March, so the leap day is their last day). -/
def yearStart (y : Nat) : Nat :=
  365 * y + y / 4 + y / 400 - y / 100

/-- Month index (0 = March, ..., 11 = February) of a day-of-year offset. -/
def monthIdx (doy : Nat) : Nat :=
  if doy < 31 then 0 else if doy < 61 then 1 else if doy < 92 then 2
  else if doy < 122 then 3 else if doy < 153 then 4 else if doy < 184 then 5
  else if doy < 214 then 6 else if doy < 245 then 7 else if doy < 275 then 8
  else if doy < 306 then 9 else if doy < 337 then 10 else 11

/-- Shifted year within the era of the day offset `doe`, from the guess
`y0 = doe / 365` (guess-and-fix). -/
def yoeOf (doe y0 : Nat) : Nat :=
  if yearStart y0 ≤ doe then y0 else y0 - 1

/-- Day-of-shifted-year offset of the day offset `doe`. -/
def doyOf (doe y0 : Nat) : Nat :=
  doe - yearStart (yoeOf doe y0)

/-- Core of the day-number-to-date conversion, with the era, the day offset
within the era, and the year guess `y0 = doe / 365` passed explicitly. -/
def civilCore (era doe y0 : Nat) : Date :=
  let mp := monthIdx (doyOf doe y0)
  let m := if mp < 10 then mp + 3 else mp - 9
  ⟨yoeOf doe y0 + era * 400 + (if m ≤ 2 then 1 else 0), m,
    doyOf doe y0 + 1 - (153 * mp + 2) / 5⟩

/-- Civil date of a day number (inverse of `daysFromCivil`): split off the
400-year era, locate the shifted year by a guess-and-fix division, then the
month by the cumulative-length table. -/
def civilFromDays (n : Nat) : Date :=
  civilCore (n / 146097) (n % 146097) (n % 146097 / 365)

/-- Divisor monotonicity fact used to bound `yearStart`. -/
theorem div100_le_div4 (k : Nat) : k / 100 ≤ k / 4 :=
  Nat.div_le_div_left (by norm_num) (by norm_num)

/-- The shifted year located by `yoeOf` brackets the day offset. -/
theorem yoeOf_bracket (doe y0 : Nat) (h : doe ≤ 146096)
    (hg1 : 365 * y0 ≤ doe) (hg2 : doe < 365 * y0 + 365) :
    yearStart (yoeOf doe y0) ≤ doe ∧ doe < yearStart (yoeOf doe y0 + 1) ∧
      yoeOf doe y0 ≤ 399 := by
  rcases y0 with _ | y1
  · unfold yoeOf yearStart
    split_ifs <;> omega
  · have hA := div100_le_div4 (y1 + 1 + 1)
    have hA2 := div100_le_div4 (y1 + 2)
    have hB := div100_le_div4 (y1 + 1)
    have hC := div100_le_div4 y1
    unfold yoeOf yearStart
    simp only [Nat.add_sub_cancel]
    split_ifs <;> omega

/-- Subtraction-free form of `yearStart`. -/
theorem yearStart_eq (y : Nat) :
    yearStart y + y / 100 = 365 * y + y / 4 + y / 400 := by
  unfold yearStart
  omega

/-- Consecutive shifted years start at most 366 days apart. -/
theorem yearStart_step (y : Nat) : yearStart (y + 1) ≤ yearStart y + 366 := by
  unfold yearStart
  omega

set_option maxHeartbeats 1600000 in
/-- The month located by `monthIdx` brackets the day-of-year offset. -/
theorem monthIdx_bracket (D : Nat) (h : D ≤ 365) :
    monthIdx D ≤ 11 ∧ (153 * monthIdx D + 2) / 5 ≤ D ∧
      D < (153 * (monthIdx D + 1) + 2) / 5 := by
  unfold monthIdx
  split_ifs <;> omega

/-- Round trip of the core conversion for any era offset and correct guess. -/
theorem daysFromCivil_civilCore (era doe y0 : Nat) (h : doe ≤ 146096)
    (hg1 : 365 * y0 ≤ doe) (hg2 : doe < 365 * y0 + 365) :
    daysFromCivil (civilCore era doe y0) = era * 146097 + doe := by
  obtain ⟨hb1, hb2, hb3⟩ := yoeOf_bracket doe y0 h hg1 hg2
  have hstep := yearStart_step (yoeOf doe y0)
  have hD : doyOf doe y0 = doe - yearStart (yoeOf doe y0) := rfl
  obtain ⟨hm1, hm2, hm3⟩ := monthIdx_bracket (doyOf doe y0) (by omega)
  have hys := yearStart_eq (yoeOf doe y0)
  have he1 : (yoeOf doe y0 + era * 400) / 400 = era := by omega
  have he2 : (yoeOf doe y0 + era * 400) % 400 = yoeOf doe y0 := by omega
  by_cases hc : monthIdx (doyOf doe y0) < 10
  · have hmle : ¬ (monthIdx (doyOf doe y0) + 3 ≤ 2) := by omega
    have he3 : (monthIdx (doyOf doe y0) + 3 + 9) % 12 = monthIdx (doyOf doe y0) := by
      omega
    unfold civilCore daysFromCivil
    simp only [if_pos hc, if_neg hmle, Nat.add_zero, Nat.sub_zero]
    rw [he3, he1, he2]
    omega
  · have hmle : monthIdx (doyOf doe y0) - 9 ≤ 2 := by omega
    have he3 : (monthIdx (doyOf doe y0) - 9 + 9) % 12 = monthIdx (doyOf doe y0) := by
      omega
    have he4 : yoeOf doe y0 + era * 400 + 1 - 1 = yoeOf doe y0 + era * 400 := rfl
    unfold civilCore daysFromCivil
    simp only [if_neg hc, if_pos hmle]
    rw [he4, he3, he1, he2]
    omega

/-- Converting a day number to a civil date and back is the identity. -/
theorem daysFromCivil_civilFromDays (n : Nat) :
    daysFromCivil (civilFromDays n) = n := by
  have h := daysFromCivil_civilCore (n / 146097) (n % 146097) (n % 146097 / 365)
    (by omega) (by omega) (by omega)
  unfold civilFromDays
  omega

/-- Components of `civilCore` form a valid bounded date when the guess is
correct: month in range, day between 1 and 31, and the year bounded for eras
below the year-9600 boundary. -/
theorem civilCore_bounds (era doe y0 : Nat) (h : doe ≤ 146096)
    (hg1 : 365 * y0 ≤ doe) (hg2 : doe < 365 * y0 + 365) (hera : era ≤ 23) :
    1 ≤ (civilCore era doe y0).month ∧ (civilCore era doe y0).month ≤ 12 ∧
    1 ≤ (civilCore era doe y0).day ∧ (civilCore era doe y0).day ≤ 31 ∧
    (civilCore era doe y0).year ≤ 9999 := by
  obtain ⟨hb1, hb2, hb3⟩ := yoeOf_bracket doe y0 h hg1 hg2
  have hstep := yearStart_step (yoeOf doe y0)
  have hD : doyOf doe y0 = doe - yearStart (yoeOf doe y0) := rfl
  obtain ⟨hm1, hm2, hm3⟩ := monthIdx_bracket (doyOf doe y0) (by omega)
  unfold civilCore
  dsimp only
  split_ifs <;> refine ⟨by omega, by omega, by omega, by omega, by omega⟩

/-- Bounds for `civilFromDays` up to the year-9600 region. -/
theorem civilFromDays_bounds (n : Nat) (h : n ≤ 3506327) :
    1 ≤ (civilFromDays n).month ∧ (civilFromDays n).month ≤ 12 ∧
    1 ≤ (civilFromDays n).day ∧ (civilFromDays n).day ≤ 31 ∧
    (civilFromDays n).year ≤ 9999 := by
  exact civilCore_bounds (n / 146097) (n % 146097) (n % 146097 / 365)
    (by omega) (by omega) (by omega) (by omega)

/-- Crude upper bound on day numbers of dates up to year 9000. -/
theorem daysFromCivil_le (c : Date) (hy : c.year ≤ 9000) (hm : c.month ≤ 12)
    (hd : c.day ≤ 31) : daysFromCivil c ≤ 3434000 := by
  unfold daysFromCivil
  dsimp only
  split_ifs <;> omega

/-! ## Weekly buckets

`pd.Grouper(freq="W")` groups timestamps into 7-day windows ending on Sunday
and keys each group by that Sunday.  In day numbers since 0000-03-01, Sundays
are exactly the numbers congruent to 4 modulo 7 (1970-01-04, a Sunday, is day
719471). -/

/-- Day number of the Sunday ending the week that contains day `n`. -/
def weekEndDay (n : Nat) : Nat :=
  n + (11 - n % 7) % 7

/-- Anchor check: 1970-01-04 was a Sunday and is its own week end. -/
theorem weekEndDay_anchor :
    daysFromCivil ⟨1970, 1, 4⟩ = 719471 ∧ weekEndDay 719471 = 719471 := by
  constructor <;> rfl

/-- The week-end day is a Sunday at most six days after `n`. -/
theorem weekEndDay_facts (n : Nat) :
    n ≤ weekEndDay n ∧ weekEndDay n < n + 7 ∧ weekEndDay n % 7 = 4 := by
  unfold weekEndDay
  omega

/-- Two days share their week-end Sunday exactly when one Sunday-ending
7-day window contains both. -/
theorem weekEndDay_eq_iff (n m : Nat) :
    weekEndDay n = weekEndDay m ↔
      ∃ s, s % 7 = 4 ∧ n ≤ s ∧ s < n + 7 ∧ m ≤ s ∧ s < m + 7 := by
  unfold weekEndDay
  constructor
  · intro h
    exact ⟨n + (11 - n % 7) % 7, by omega, by omega, by omega, by omega, by omega⟩
  · intro ⟨s, hs⟩
    omega

/-! ## Date formatting

`strftime("%Y-%m-%d")` renders the civil date with a zero-padded 4-digit
year and 2-digit month and day. -/

/-- Decimal digit character. -/
def digitChar (n : Nat) : Char :=
  Char.ofNat (48 + n)

/-- Two-digit zero-padded decimal rendering. -/
def pad2 (n : Nat) : List Char :=
  [digitChar (n / 10), digitChar (n % 10)]

/-- Four-digit zero-padded decimal rendering. -/
def pad4 (n : Nat) : List Char :=
  [digitChar (n / 1000), digitChar (n / 100 % 10), digitChar (n / 10 % 10),
    digitChar (n % 10)]

/-- The `YYYY-MM-DD` rendering of a civil date. -/
def formatDate (c : Date) : String :=
  ⟨pad4 c.year ++ '-' :: pad2 c.month ++ '-' :: pad2 c.day⟩

/-- Digit characters are injective on single digits. -/
theorem digitChar_inj : ∀ x < 10, ∀ y < 10, digitChar x = digitChar y → x = y := by
  decide

/-- The `YYYY-MM-DD` rendering is injective on bounded dates. -/
theorem formatDate_inj (a b : Date) (hya : a.year ≤ 9999) (hma : a.month ≤ 99)
    (hda : a.day ≤ 99) (hyb : b.year ≤ 9999) (hmb : b.month ≤ 99)
    (hdb : b.day ≤ 99) (h : formatDate a = formatDate b) : a = b := by
  obtain ⟨ya, ma, da⟩ := a
  obtain ⟨yb, mb, db⟩ := b
  dsimp only at hya hma hda hyb hmb hdb
  replace h : pad4 ya ++ '-' :: pad2 ma ++ '-' :: pad2 da =
      pad4 yb ++ '-' :: pad2 mb ++ '-' :: pad2 db := congrArg String.data h
  simp only [pad4, pad2, List.cons_append, List.nil_append, List.cons.injEq,
    and_true, true_and] at h
  simp only [Date.mk.injEq]
  obtain ⟨e1, e2, e3, e4, e5, e6, e7, e8⟩ := h
  have g1 := digitChar_inj _ (by omega : ya / 1000 < 10) _ (by omega) e1
  have g2 := digitChar_inj _ (by omega : ya / 100 % 10 < 10) _ (by omega) e2
  have g3 := digitChar_inj _ (by omega : ya / 10 % 10 < 10) _ (by omega) e3
  have g4 := digitChar_inj _ (by omega : ya % 10 < 10) _ (by omega) e4
  have g5 := digitChar_inj _ (by omega : ma / 10 < 10) _ (by omega) e5
  have g6 := digitChar_inj _ (by omega : ma % 10 < 10) _ (by omega) e6
  have g7 := digitChar_inj _ (by omega : da / 10 < 10) _ (by omega) e7
  have g8 := digitChar_inj _ (by omega : da % 10 < 10) _ (by omega) e8
  refine ⟨by omega, by omega, by omega⟩

/-! ## The week label -/

/-- Week-bucket label of a civil date: the `YYYY-MM-DD` rendering of the
Sunday ending its week, exactly as `strftime` renders the key produced by
the weekly grouper. -/
def weekLabel (c : Date) : String :=
  formatDate (civilFromDays (weekEndDay (daysFromCivil c)))

/-- Sanity check on the scenario from the specification: 2023-01-02 falls in
the week ending Sunday 2023-01-08. -/
theorem weekLabel_scenario : weekLabel ⟨2023, 1, 2⟩ = "2023-01-08" := by
  decide

/-- Two bounded dates get the same week label exactly when some Sunday-ending
7-day window contains both, and the label renders that window's end date. -/
theorem weekLabel_eq_iff (c1 c2 : Date) (h1 : c1.valid) (h2 : c2.valid)
    (hy1 : c1.year ≤ 9000) (hy2 : c2.year ≤ 9000) :
    (weekLabel c1 = weekLabel c2 ↔
      ∃ s, s % 7 = 4 ∧ daysFromCivil c1 ≤ s ∧ s < daysFromCivil c1 + 7 ∧
        daysFromCivil c2 ≤ s ∧ s < daysFromCivil c2 + 7) ∧
    weekLabel c1 = formatDate (civilFromDays (weekEndDay (daysFromCivil c1))) := by
  obtain ⟨hm1a, hm1b, hd1a, hd1b⟩ := h1
  obtain ⟨hm2a, hm2b, hd2a, hd2b⟩ := h2
  have hb1 : daysFromCivil c1 ≤ 3434000 :=
    daysFromCivil_le c1 hy1 hm1b (hd1b.trans (by unfold monthLength; split_ifs <;> omega))
  have hb2 : daysFromCivil c2 ≤ 3434000 :=
    daysFromCivil_le c2 hy2 hm2b (hd2b.trans (by unfold monthLength; split_ifs <;> omega))
  obtain ⟨hw1a, hw1b, hw1c⟩ := weekEndDay_facts (daysFromCivil c1)
  obtain ⟨hw2a, hw2b, hw2c⟩ := weekEndDay_facts (daysFromCivil c2)
  refine ⟨⟨fun h => ?_, fun h => ?_⟩, rfl⟩
  · have e1 := civilFromDays_bounds (weekEndDay (daysFromCivil c1)) (by omega)
    have e2 := civilFromDays_bounds (weekEndDay (daysFromCivil c2)) (by omega)
    have heq : civilFromDays (weekEndDay (daysFromCivil c1)) =
        civilFromDays (weekEndDay (daysFromCivil c2)) :=
      formatDate_inj _ _ (by omega) (by omega) (by omega) (by omega) (by omega)
        (by omega) h
    have hdays : weekEndDay (daysFromCivil c1) = weekEndDay (daysFromCivil c2) := by
      have := congrArg daysFromCivil heq
      rwa [daysFromCivil_civilFromDays, daysFromCivil_civilFromDays] at this
    rw [weekEndDay_eq_iff] at hdays
    exact hdays
  · have hdays : weekEndDay (daysFromCivil c1) = weekEndDay (daysFromCivil c2) :=
      (weekEndDay_eq_iff _ _).mpr h
    unfold weekLabel
    rw [hdays]

/-! ## List machinery

`groupby(sort=True)` groups a frame by the sorted list of its distinct keys,
keeping the original row order inside each group; `sort_values` on several
columns is a stable lexicographic sort.  Both are modelled with the stable
insertion sort `sSort` below. -/

/-- Stable insertion: `x` goes in front of the first element that does not
strictly precede it, so elements equivalent to `x` that were inserted earlier
stay in front of it. -/
def sInsert (lt : α → α → Bool) (x : α) : List α → List α
  | [] => [x]
  | y :: ys => if lt y x then y :: sInsert lt x ys else x :: y :: ys

/-- Stable insertion sort with strict comparator `lt`. -/
def sSort (lt : α → α → Bool) : List α → List α
  | [] => []
  | x :: xs => sInsert lt x (sSort lt xs)

/-- First-occurrence deduplication, as `pandas.unique` performs it. -/
def dedupFirst [DecidableEq α] : List α → List α
  | [] => []
  | x :: xs => x :: (dedupFirst xs).filter (fun a => a ≠ x)

/-- Sorted list of the distinct keys of `l`, as `groupby(sort=True)` forms it. -/
def sortedKeys [DecidableEq κ] (lt : κ → κ → Bool) (key : α → κ)
    (l : List α) : List κ :=
  sSort lt (dedupFirst (l.map key))

/-- Grouping of `l` by `key`: one group per distinct key, keys sorted, rows of
each group in their original order. -/
def listGroupBy [DecidableEq κ] (lt : κ → κ → Bool) (key : α → κ)
    (l : List α) : List (κ × List α) :=
  (sortedKeys lt key l).map (fun k => (k, l.filter (fun a => key a = k)))

theorem mem_sInsert (lt : α → α → Bool) (x a : α) (l : List α) :
    a ∈ sInsert lt x l ↔ a = x ∨ a ∈ l := by
  induction l with
  | nil => simp [sInsert]
  | cons y ys ih =>
      unfold sInsert
      split_ifs <;> simp [ih] <;> tauto

theorem mem_sSort (lt : α → α → Bool) (a : α) (l : List α) :
    a ∈ sSort lt l ↔ a ∈ l := by
  induction l with
  | nil => simp [sSort]
  | cons y ys ih => simp [sSort, mem_sInsert, ih]

theorem mem_dedupFirst [DecidableEq α] (a : α) (l : List α) :
    a ∈ dedupFirst l ↔ a ∈ l := by
  induction l with
  | nil => simp [dedupFirst]
  | cons x xs ih =>
      rw [dedupFirst, List.mem_cons, List.mem_filter, ih]
      by_cases hax : a = x <;> simp [hax]

theorem nodup_dedupFirst [DecidableEq α] (l : List α) :
    (dedupFirst l).Nodup := by
  induction l with
  | nil => simp [dedupFirst]
  | cons x xs ih =>
      rw [dedupFirst]
      refine List.Nodup.cons ?_ (ih.filter _)
      intro hx
      rw [List.mem_filter] at hx
      simp at hx

theorem nodup_sInsert (lt : α → α → Bool) (x : α) (l : List α)
    (hx : x ∉ l) (h : l.Nodup) : (sInsert lt x l).Nodup := by
  induction l with
  | nil => simp [sInsert]
  | cons y ys ih =>
      unfold sInsert
      rw [List.nodup_cons] at h
      split_ifs
      · refine List.Nodup.cons ?_ (ih (fun hy => hx (List.mem_cons_of_mem _ hy)) h.2)
        intro hy
        rw [mem_sInsert] at hy
        rcases hy with rfl | hy
        · exact hx (List.mem_cons_self _ _)
        · exact h.1 hy
      · exact List.Nodup.cons hx (List.nodup_cons.mpr h)

theorem nodup_sSort (lt : α → α → Bool) (l : List α) (h : l.Nodup) :
    (sSort lt l).Nodup := by
  induction l with
  | nil => simp [sSort]
  | cons y ys ih =>
      rw [List.nodup_cons] at h
      exact nodup_sInsert lt y _ (fun hy => h.1 ((mem_sSort lt y ys).mp hy)) (ih h.2)

theorem nodup_sortedKeys [DecidableEq κ] (lt : κ → κ → Bool) (key : α → κ)
    (l : List α) : (sortedKeys lt key l).Nodup :=
  nodup_sSort lt _ (nodup_dedupFirst _)

theorem mem_sortedKeys [DecidableEq κ] (lt : κ → κ → Bool) (key : α → κ)
    (l : List α) (k : κ) : k ∈ sortedKeys lt key l ↔ k ∈ l.map key := by
  rw [sortedKeys, mem_sSort, mem_dedupFirst]

theorem sum_split {M : Type} [AddCommMonoid M] (l : List α) (q : α → Bool)
    (v : α → M) :
    ((l.filter q).map v).sum + ((l.filter (fun a => !q a)).map v).sum =
      (l.map v).sum := by
  induction l with
  | nil => simp
  | cons a as ih =>
      by_cases hq : q a <;>
        simp [List.filter_cons, hq, add_assoc, add_left_comm, ih]

theorem filter_of_filter_ne [DecidableEq κ] (l : List α) (key : α → κ)
    (k k' : κ) (h : k' ≠ k) :
    (l.filter (fun a => !(key a = k : Bool))).filter (fun a => key a = k') =
      l.filter (fun a => key a = k') := by
  rw [List.filter_filter]
  refine List.filter_congr fun a _ => ?_
  by_cases hk : key a = k'
  · simp [hk, h]
  · simp [hk]

/-- Summing a value over the groups of a partition by distinct covering keys
gives the sum over the whole list. -/
theorem sum_over_groups {M : Type} [AddCommMonoid M] [DecidableEq κ]
    (ks : List κ) (key : α → κ) (v : α → M) :
    ∀ l : List α, ks.Nodup → (∀ a ∈ l, key a ∈ ks) →
      (ks.map (fun k => ((l.filter (fun a => key a = k)).map v).sum)).sum =
        (l.map v).sum := by
  induction ks with
  | nil =>
      intro l _ hcov
      cases l with
      | nil => simp
      | cons a as => exact absurd (hcov a (List.mem_cons_self a as)) (by simp)
  | cons k ks ih =>
      intro l hnd hcov
      rw [List.nodup_cons] at hnd
      have hstep : ks.map
            (fun k' => ((l.filter (fun a => key a = k')).map v).sum) =
          ks.map (fun k' =>
            (((l.filter (fun a => !(key a = k : Bool))).filter
              (fun a => key a = k')).map v).sum) :=
        List.map_congr_left fun k' hk' => by
          rw [filter_of_filter_ne l key k k' (fun he => hnd.1 (he ▸ hk'))]
      rw [List.map_cons, List.sum_cons, hstep,
        ih (l.filter (fun a => !(key a = k : Bool))) hnd.2 ?_, sum_split]
      intro a ha
      rw [List.mem_filter] at ha
      have := hcov a ha.1
      rcases List.mem_cons.mp this with he | hm
      · simp [he] at ha
      · exact hm

theorem length_eq_sum_ones (l : List α) : (l.map fun _ => (1 : Nat)).sum = l.length := by
  induction l with
  | nil => rfl
  | cons a as ih => simp [ih, Nat.add_comm]

/-- Group sizes of a grouping sum to the length of the grouped list. -/
theorem listGroupBy_length_sum [DecidableEq κ] (lt : κ → κ → Bool)
    (key : α → κ) (l : List α) :
    ((listGroupBy lt key l).map (fun kg => kg.2.length)).sum = l.length := by
  unfold listGroupBy
  rw [List.map_map]
  have h := sum_over_groups (sortedKeys lt key l) key (fun _ => (1 : Nat)) l
    (nodup_sortedKeys lt key l)
    (fun a ha => (mem_sortedKeys lt key l (key a)).mpr (List.mem_map_of_mem key ha))
  rw [length_eq_sum_ones] at h
  rw [← h]
  refine congrArg List.sum (List.map_congr_left fun k _ => ?_)
  simp [length_eq_sum_ones]

/-- Group sums of a grouping sum to the sum over the grouped list. -/
theorem listGroupBy_sum {M : Type} [AddCommMonoid M] [DecidableEq κ]
    (lt : κ → κ → Bool) (key : α → κ) (v : α → M) (l : List α) :
    ((listGroupBy lt key l).map (fun kg => (kg.2.map v).sum)).sum =
      (l.map v).sum := by
  unfold listGroupBy
  rw [List.map_map]
  exact sum_over_groups (sortedKeys lt key l) key v l (nodup_sortedKeys lt key l)
    (fun a ha => (mem_sortedKeys lt key l (key a)).mpr (List.mem_map_of_mem key ha))

/-- Shape of the members of a grouping. -/
theorem mem_listGroupBy [DecidableEq κ] (lt : κ → κ → Bool) (key : α → κ)
    (l : List α) (k : κ) (g : List α) :
    (k, g) ∈ listGroupBy lt key l ↔
      k ∈ sortedKeys lt key l ∧ g = l.filter (fun a => key a = k) := by
  unfold listGroupBy
  rw [List.mem_map]
  constructor
  · rintro ⟨k', hk', he⟩
    cases he
    exact ⟨hk', rfl⟩
  · rintro ⟨hk, rfl⟩
    exact ⟨k, hk, rfl⟩

/-- Every group of a grouping is nonempty. -/
theorem mem_listGroupBy_ne_nil [DecidableEq κ] (lt : κ → κ → Bool)
    (key : α → κ) (l : List α) (k : κ) (g : List α)
    (h : (k, g) ∈ listGroupBy lt key l) : g ≠ [] := by
  rw [mem_listGroupBy] at h
  obtain ⟨hk, rfl⟩ := h
  rw [mem_sortedKeys, List.mem_map] at hk
  obtain ⟨a, ha, rfl⟩ := hk
  intro hnil
  have : a ∈ l.filter (fun b => key b = key a) := by
    rw [List.mem_filter]
    exact ⟨ha, by simp⟩
  rw [hnil] at this
  cases this

/-- Stability and sortedness of `sInsert`: inserting an element that
originally precedes the whole list keeps every output pair either strictly
comparator-ordered or a comparator tie in original order, for an asymmetric,
negatively transitive comparator. -/
theorem pairwise_sInsert_stable (lt : α → α → Bool) (R0 : α → α → Prop)
    (hasym : ∀ a b, lt a b = true → lt b a = false)
    (hneg : ∀ a b c, lt a b = false → lt b c = false → lt a c = false)
    (x : α) (l : List α) (hx : ∀ y ∈ l, R0 x y)
    (hl : l.Pairwise (fun a b => lt a b = true ∨
      (lt a b = false ∧ lt b a = false ∧ R0 a b))) :
    (sInsert lt x l).Pairwise (fun a b => lt a b = true ∨
      (lt a b = false ∧ lt b a = false ∧ R0 a b)) := by
  induction l with
  | nil => simp [sInsert]
  | cons y ys ih =>
      rw [List.pairwise_cons] at hl
      unfold sInsert
      split_ifs with hyx
      · refine List.pairwise_cons.mpr
          ⟨?_, ih (fun z hz => hx z (List.mem_cons_of_mem _ hz)) hl.2⟩
        intro z hz
        rw [mem_sInsert] at hz
        rcases hz with rfl | hz
        · exact Or.inl hyx
        · exact hl.1 z hz
      · have hyx2 : lt y x = false := by
          revert hyx
          cases lt y x <;> simp
        refine List.pairwise_cons.mpr ⟨?_, List.pairwise_cons.mpr hl⟩
        intro z hz
        rcases List.mem_cons.mp hz with rfl | hz
        · by_cases hxz : lt x z = true
          · exact Or.inl hxz
          · have hxz2 : lt x z = false := by
              revert hxz
              cases lt x z <;> simp
            exact Or.inr ⟨hxz2, hyx2, hx z (List.mem_cons_self _ _)⟩
        · have hQ := hl.1 z hz
          by_cases hxz : lt x z = true
          · exact Or.inl hxz
          · have hxz2 : lt x z = false := by
              revert hxz
              cases lt x z <;> simp
            have hzy : lt z y = false := by
              rcases hQ with hyz | ⟨_, hzy, _⟩
              · exact hasym y z hyz
              · exact hzy
            exact Or.inr ⟨hxz2, hneg z y x hzy hyx2,
              hx z (List.mem_cons_of_mem _ hz)⟩

/-- The stable sort orders every output pair: strictly by the comparator, or
as a comparator tie kept in the original relative order `R0`. -/
theorem pairwise_sSort_stable (lt : α → α → Bool) (R0 : α → α → Prop)
    (hasym : ∀ a b, lt a b = true → lt b a = false)
    (hneg : ∀ a b c, lt a b = false → lt b c = false → lt a c = false)
    (l : List α) (hl : l.Pairwise R0) :
    (sSort lt l).Pairwise (fun a b => lt a b = true ∨
      (lt a b = false ∧ lt b a = false ∧ R0 a b)) := by
  induction l with
  | nil => simp [sSort]
  | cons x xs ih =>
      rw [List.pairwise_cons] at hl
      exact pairwise_sInsert_stable lt R0 hasym hneg x _
        (fun y hy => hl.1 y ((mem_sSort lt y xs).mp hy)) (ih hl.2)

/-! ## Data model

Typed rows of the four validated input tables (pandera schemas under
`src/logic/schemas/`): only the columns the pipeline reads are carried.
`order_purchase_timestamp` is declared `DateTime, nullable=False` with
`coerce=True`, so after loading it is a valid timestamp, modelled as a civil
date.  `price` is a float column, modelled as an exact rational, and
`review_score` an integer column. -/

/-- One row of `olist_orders_dataset.csv` after validation. -/
structure OrderRow where
  order_id : String
  customer_id : String
  order_purchase_timestamp : Date
deriving DecidableEq, Repr

/-- One row of `olist_order_items_dataset.csv` after validation. -/
structure OrderItemRow where
  order_id : String
  product_id : String
  price : Rat
deriving DecidableEq, Repr

/-- One row of `olist_customers_dataset.csv` after validation. -/
structure CustomerRow where
  customer_id : String
  customer_city : String
deriving DecidableEq, Repr

/-- One row of `olist_order_reviews_dataset.csv` after validation. -/
structure OrderReviewRow where
  order_id : String
  review_score : Int
deriving DecidableEq, Repr

/-- The four tables a `DataCalculator` holds after `_read_files`. -/
structure Tables where
  customers : List CustomerRow
  order_items : List OrderItemRow
  orders : List OrderRow
  order_reviews : List OrderReviewRow
deriving DecidableEq, Repr

/-! ## Joins

`pd.merge(left, right, on=key)` with the default inner join: one output row
per matching pair, rows ordered by the left frame. -/

/-- Inner join of orders and order items on `order_id`
(`etl.py` line 169). -/
def mergeOrdersItems (orders : List OrderRow) (items : List OrderItemRow) :
    List (OrderRow × OrderItemRow) :=
  orders.flatMap fun o =>
    (items.filter fun it => it.order_id = o.order_id).map fun it => (o, it)

/-- Inner join of orders, reviews and order items on `order_id`
(`etl.py` lines 210 to 212). -/
def mergeOrdersReviewsItems (orders : List OrderRow)
    (reviews : List OrderReviewRow) (items : List OrderItemRow) :
    List (OrderRow × OrderReviewRow × OrderItemRow) :=
  (orders.flatMap fun o =>
    (reviews.filter fun r => r.order_id = o.order_id).map fun r => (o, r)).flatMap
      fun p => (items.filter fun it => it.order_id = p.1.order_id).map
        fun it => (p.1, p.2, it)

/-- Inner join of orders, customers and order items
(`etl.py` lines 240 to 242). -/
def mergeOrdersCustomersItems (orders : List OrderRow)
    (customers : List CustomerRow) (items : List OrderItemRow) :
    List (OrderRow × CustomerRow × OrderItemRow) :=
  (orders.flatMap fun o =>
    (customers.filter fun c => c.customer_id = o.customer_id).map
      fun c => (o, c)).flatMap
    fun p => (items.filter fun it => it.order_id = p.1.order_id).map
      fun it => (p.1, p.2, it)

/-! ## Comparators for sorted grouping

String comparison is code-point lexicographic, both in Python and in Lean;
`charListLt` is an executable form of it, bridged to `String.lt` by
`strLt_iff`. -/

/-- Lexicographic comparison of char lists by code point. -/
def charListLt : List Char → List Char → Bool
  | _, [] => false
  | [], _ :: _ => true
  | a :: as, b :: bs =>
      if a < b then true else if b < a then false else charListLt as bs

/-- Strict comparator on strings. -/
def strLt (a b : String) : Bool :=
  charListLt a.data b.data

theorem charListLt_iff (as bs : List Char) :
    charListLt as bs = true ↔ as < bs := by
  induction as generalizing bs with
  | nil =>
      cases bs with
      | nil =>
          simp only [charListLt]
          exact ⟨fun h => absurd h (by decide), fun h => by cases h⟩
      | cons b bs =>
          simp only [charListLt]
          exact ⟨fun _ => List.Lex.nil, fun _ => trivial⟩
  | cons a as ih =>
      cases bs with
      | nil =>
          simp only [charListLt]
          exact ⟨fun h => absurd h (by decide), fun h => by cases h⟩
      | cons b bs =>
          simp only [charListLt]
          split_ifs with h1 h2
          · exact ⟨fun _ => List.Lex.rel h1, fun _ => rfl⟩
          · constructor
            · intro h; exact absurd h (by decide)
            · intro h
              cases h with
              | cons htl => exact absurd h2 (lt_irrefl a)
              | rel h3 => exact absurd h3 h1
          · have hab : a = b := le_antisymm (le_of_not_lt h2) (le_of_not_lt h1)
            subst hab
            rw [ih bs]
            constructor
            · intro h; exact List.Lex.cons h
            · intro h
              cases h with
              | cons htl => exact htl
              | rel h3 => exact absurd h3 h1

/-- The executable comparator agrees with the `String` order. -/
theorem strLt_iff (a b : String) : strLt a b = true ↔ a < b := by
  rw [String.lt_iff_toList_lt]
  exact charListLt_iff a.data b.data

/-- `strLt` is irreflexive. -/
theorem strLt_irrefl (a : String) : strLt a a = false := by
  rw [← Bool.not_eq_true, strLt_iff]
  exact lt_irrefl a

/-- `strLt` is asymmetric. -/
theorem strLt_asymm (a b : String) (h : strLt a b = true) : strLt b a = false := by
  rw [← Bool.not_eq_true, strLt_iff]
  exact asymm ((strLt_iff a b).mp h)

/-- `strLt a b = false` says exactly `b ≤ a` in the string order. -/
theorem strLt_eq_false_iff (a b : String) : strLt a b = false ↔ b ≤ a := by
  rw [← not_lt, ← strLt_iff]
  cases strLt a b <;> simp

/-- Two strings neither of which precedes the other are equal. -/
theorem strLt_antisymm (a b : String) (h1 : strLt a b = false)
    (h2 : strLt b a = false) : a = b :=
  le_antisymm ((strLt_eq_false_iff b a).mp h2) ((strLt_eq_false_iff a b).mp h1)

/-- Negative transitivity of `strLt`. -/
theorem strLt_neg_trans (a b c : String) (h1 : strLt a b = false)
    (h2 : strLt b c = false) : strLt a c = false := by
  rw [strLt_eq_false_iff] at h1 h2 ⊢
  exact le_trans h2 h1

/-- Strict comparator on strings, used for sorted grouping keys. -/
def ltStr (a b : String) : Bool := strLt a b

/-- Strict lexicographic comparator on a string and a number. -/
def ltStrNat (a b : String × Nat) : Bool :=
  strLt a.1 b.1 || (a.1 = b.1 && a.2 < b.2)

/-- Strict lexicographic comparator on two strings. -/
def ltStrStr (a b : String × String) : Bool :=
  strLt a.1 b.1 || (a.1 = b.1 && strLt a.2 b.2)

/-- Decomposition of a true lexicographic comparison of explicit pairs. -/
theorem ltStrStr_pair_true (p1 c1 p2 c2 : String)
    (h : ltStrStr (p1, c1) (p2, c2) = true) :
    strLt p1 p2 = true ∨ (p1 = p2 ∧ strLt c1 c2 = true) := by
  unfold ltStrStr at h
  simpa using h

/-- Components of a false lexicographic comparison. -/
theorem ltStrStr_false_parts (a b : String × String)
    (h : ltStrStr a b = false) :
    strLt a.1 b.1 = false ∧ (a.1 = b.1 → strLt a.2 b.2 = false) := by
  unfold ltStrStr at h
  rw [Bool.or_eq_false_iff, Bool.and_eq_false_iff] at h
  refine ⟨h.1, fun he => ?_⟩
  rcases h.2 with hd | hc
  · rw [decide_eq_false_iff_not] at hd
    exact absurd he hd
  · exact hc

/-- Two keys neither of which lexicographically precedes the other are
equal. -/
theorem ltStrStr_eq_of_both_false (a b : String × String)
    (h1 : ltStrStr a b = false) (h2 : ltStrStr b a = false) : a = b := by
  obtain ⟨hs1, hc1⟩ := ltStrStr_false_parts a b h1
  obtain ⟨hs2, hc2⟩ := ltStrStr_false_parts b a h2
  have he1 : a.1 = b.1 := strLt_antisymm _ _ hs1 hs2
  have he2 : a.2 = b.2 := strLt_antisymm _ _ (hc1 he1) (hc2 he1.symm)
  exact Prod.ext he1 he2

/-- Asymmetry of the lexicographic pair comparator. -/
theorem ltStrStr_asymm (a b : String × String) (h : ltStrStr a b = true) :
    ltStrStr b a = false := by
  rw [← Bool.not_eq_true]
  intro h2
  unfold ltStrStr at h h2
  rw [Bool.or_eq_true, Bool.and_eq_true, decide_eq_true_eq] at h h2
  rcases h with hs | ⟨he, hc⟩ <;> rcases h2 with hs2 | ⟨he2, hc2⟩
  · rw [strLt_asymm _ _ hs] at hs2
    simp at hs2
  · rw [he2, strLt_irrefl] at hs
    simp at hs
  · rw [he, strLt_irrefl] at hs2
    simp at hs2
  · rw [strLt_asymm _ _ hc] at hc2
    simp at hc2

/-- Negative transitivity of the lexicographic pair comparator. -/
theorem ltStrStr_neg_trans (a b c : String × String)
    (h1 : ltStrStr a b = false) (h2 : ltStrStr b c = false) :
    ltStrStr a c = false := by
  obtain ⟨hs1, hc1⟩ := ltStrStr_false_parts a b h1
  obtain ⟨hs2, hc2⟩ := ltStrStr_false_parts b c h2
  unfold ltStrStr
  rw [Bool.or_eq_false_iff, Bool.and_eq_false_iff]
  refine ⟨strLt_neg_trans _ _ _ hs1 hs2, ?_⟩
  by_cases he : a.1 = c.1
  · right
    have hba : b.1 ≤ a.1 := (strLt_eq_false_iff _ _).mp hs1
    have hcb : c.1 ≤ b.1 := (strLt_eq_false_iff _ _).mp hs2
    have hab : a.1 = b.1 := le_antisymm ((le_of_eq he).trans hcb) hba
    have hbc : b.1 = c.1 := by rw [← hab, he]
    exact strLt_neg_trans _ _ _ (hc1 hab) (hc2 hbc)
  · left
    rw [decide_eq_false_iff_not]
    exact he

/-! ## The three aggregators -/

/-- Week-bucket key of an order: the day number of the Sunday closing its
week, which is what the `W`-frequency grouper groups by. -/
def weekKey (o : OrderRow) : Nat :=
  weekEndDay (daysFromCivil o.order_purchase_timestamp)

/-- One row of the summary frame: `product_id`, `order_purchase_week`
(the formatted Sunday), the price sum and the row count of the group. -/
structure SummaryRow where
  product_id : String
  order_purchase_week : String
  sum : Rat
  count : Nat
deriving DecidableEq, Repr, Inhabited

/-- The allow-list filter `_filter_df_on_product_list` combined with its call
guard `if product_list and len(product_list) > 0` (`etl.py` lines 140 to 155):
`None` and the empty list leave the frame unchanged. -/
def filterOnProductList (pid : α → String) (l : List α) :
    Option (List String) → List α
  | some ps => if ps.isEmpty then l else l.filter fun a => pid a ∈ ps
  | none => l

/-- The Summary Aggregator `DataCalculator.calculate_summary`
(`etl.py` lines 157 to 195): join orders with items, group by
`(product_id, week bucket)`, aggregate sum and count of `price`, label the
bucket with its formatted end date. -/
def calculateSummary (t : Tables) (product_list : Option (List String)) :
    List SummaryRow :=
  let merged := mergeOrdersItems t.orders t.order_items
  let grouped := listGroupBy ltStrNat (fun p => (p.2.product_id, weekKey p.1)) merged
  let rows : List SummaryRow := grouped.map fun kg =>
    ⟨kg.1.1, formatDate (civilFromDays kg.1.2),
      (kg.2.map fun p => p.2.price).sum, kg.2.length⟩
  filterOnProductList (fun r => r.product_id) rows product_list

/-- One row of the ratings frame. -/
structure RatingRow where
  product_id : String
  mean_product_rating : Rat
deriving DecidableEq, Repr

/-- The Rating Aggregator `DataCalculator.calculate_product_ratings`
(`etl.py` lines 197 to 225): join orders, reviews and items, group by
`product_id`, take the mean review score. -/
def calculateProductRatings (t : Tables)
    (product_list : Option (List String)) : List RatingRow :=
  let merged := mergeOrdersReviewsItems t.orders t.order_reviews t.order_items
  let grouped := listGroupBy ltStr (fun p => p.2.2.product_id) merged
  let rows : List RatingRow := grouped.map fun kg =>
    ⟨kg.1, (kg.2.map fun p => (p.2.1.review_score : Rat)).sum / (kg.2.length : Rat)⟩
  filterOnProductList (fun r => r.product_id) rows product_list

/-- One row of the per-(product, city) sales-count frame. -/
structure CitySalesRow where
  product_id : String
  customer_city : String
  sales_count : Nat
deriving DecidableEq, Repr

/-- One row of the top-cities frame: the ordered city list of a product. -/
structure TopCitiesRow where
  product_id : String
  customer_city : List String
deriving DecidableEq, Repr

/-- The comparator of `sort_values(by=["product_id", "sales_count"],
ascending=[True, False])`: product ascending, count descending.  Multi-key
`sort_values` is a stable lexsort, modelled by the stable `sSort`. -/
def ltPidCountDesc (a b : CitySalesRow) : Bool :=
  strLt a.product_id b.product_id ||
    (a.product_id = b.product_id && b.sales_count < a.sales_count)

/-- Characterization of a true `sort_values` comparison. -/
theorem ltPidCountDesc_eq_true_iff (a b : CitySalesRow) :
    ltPidCountDesc a b = true ↔
      strLt a.product_id b.product_id = true ∨
        (a.product_id = b.product_id ∧ b.sales_count < a.sales_count) := by
  unfold ltPidCountDesc
  simp

/-- Components of a false `sort_values` comparison. -/
theorem ltPidCountDesc_false_parts (a b : CitySalesRow)
    (h : ltPidCountDesc a b = false) :
    strLt a.product_id b.product_id = false ∧
      (a.product_id = b.product_id → a.sales_count ≤ b.sales_count) := by
  unfold ltPidCountDesc at h
  rw [Bool.or_eq_false_iff, Bool.and_eq_false_iff] at h
  refine ⟨h.1, fun he => ?_⟩
  rcases h.2 with hd | hc
  · rw [decide_eq_false_iff_not] at hd
    exact absurd he hd
  · rw [decide_eq_false_iff_not, not_lt] at hc
    exact hc

/-- Asymmetry of the `sort_values` comparator. -/
theorem ltPidCountDesc_asymm (a b : CitySalesRow)
    (h : ltPidCountDesc a b = true) : ltPidCountDesc b a = false := by
  rw [← Bool.not_eq_true, ltPidCountDesc_eq_true_iff]
  rw [ltPidCountDesc_eq_true_iff] at h
  rintro (hs2 | ⟨he2, hc2⟩) <;> rcases h with hs | ⟨he, hc⟩
  · rw [strLt_asymm _ _ hs] at hs2
    simp at hs2
  · rw [he, strLt_irrefl] at hs2
    simp at hs2
  · rw [he2, strLt_irrefl] at hs
    simp at hs
  · omega

/-- Negative transitivity of the `sort_values` comparator. -/
theorem ltPidCountDesc_neg_trans (a b c : CitySalesRow)
    (h1 : ltPidCountDesc a b = false) (h2 : ltPidCountDesc b c = false) :
    ltPidCountDesc a c = false := by
  obtain ⟨hs1, hc1⟩ := ltPidCountDesc_false_parts a b h1
  obtain ⟨hs2, hc2⟩ := ltPidCountDesc_false_parts b c h2
  rw [← Bool.not_eq_true, ltPidCountDesc_eq_true_iff]
  rintro (hs | ⟨he, hc⟩)
  · rw [strLt_neg_trans _ _ _ hs1 hs2] at hs
    simp at hs
  · have hba : b.product_id ≤ a.product_id := (strLt_eq_false_iff _ _).mp hs1
    have hcb : c.product_id ≤ b.product_id := (strLt_eq_false_iff _ _).mp hs2
    have hab : a.product_id = b.product_id :=
      le_antisymm ((le_of_eq he).trans hcb) hba
    have hbc : b.product_id = c.product_id := by rw [← hab, he]
    have q1 := hc1 hab
    have q2 := hc2 hbc
    omega

/-- `groupby(key).head(n)`: keep each row whose key has appeared fewer than
`n` times so far, preserving the frame order. -/
def headPerKeyAux [DecidableEq κ] (n : Nat) (key : α → κ) :
    List κ → List α → List α
  | _, [] => []
  | seen, x :: xs =>
      if seen.countP (fun k => k = key x) < n
      then x :: headPerKeyAux n key (key x :: seen) xs
      else headPerKeyAux n key (key x :: seen) xs

/-- First `n` rows of every key group, in frame order. -/
def headPerKey [DecidableEq κ] (n : Nat) (key : α → κ) (l : List α) : List α :=
  headPerKeyAux n key [] l

/-- `headPerKeyAux` returns a sublist of its input. -/
theorem headPerKeyAux_sublist [DecidableEq κ] (n : Nat) (key : α → κ) :
    ∀ (l : List α) (seen : List κ),
      List.Sublist (headPerKeyAux n key seen l) l := by
  intro l
  induction l with
  | nil =>
      intro seen
      simp [headPerKeyAux]
  | cons x xs ih =>
      intro seen
      unfold headPerKeyAux
      split_ifs
      · exact List.Sublist.cons₂ x (ih _)
      · exact List.Sublist.cons x (ih _)

/-- `headPerKey` returns a sublist of its input frame. -/
theorem headPerKey_sublist [DecidableEq κ] (n : Nat) (key : α → κ)
    (l : List α) : List.Sublist (headPerKey n key l) l :=
  headPerKeyAux_sublist n key l []

/-- `headPerKeyAux` keeps at most `n` minus the already-seen count of rows
of any key. -/
theorem headPerKeyAux_countP [DecidableEq κ] (n : Nat) (key : α → κ) (k : κ) :
    ∀ (l : List α) (seen : List κ),
      (headPerKeyAux n key seen l).countP (fun a => key a = k) ≤
        n - seen.countP (fun s => s = k) := by
  intro l
  induction l with
  | nil =>
      intro seen
      simp [headPerKeyAux]
  | cons x xs ih =>
      intro seen
      unfold headPerKeyAux
      have h2 := ih (key x :: seen)
      rw [List.countP_cons] at h2
      by_cases hk : key x = k
      · subst hk
        simp at h2
        split_ifs with hc
        · rw [List.countP_cons]
          simp
          omega
        · omega
      · simp [hk] at h2
        split_ifs with hc
        · rw [List.countP_cons]
          simp [hk]
          omega
        · omega

/-- `groupby(key).head(n)` keeps at most `n` rows of any key. -/
theorem headPerKey_countP [DecidableEq κ] (n : Nat) (key : α → κ) (k : κ)
    (l : List α) : (headPerKey n key l).countP (fun a => key a = k) ≤ n := by
  have h := headPerKeyAux_countP n key k l []
  simpa [headPerKey] using h

/-- The Top-Cities Aggregator `DataCalculator.calculate_product_sales_by_city`
(`etl.py` lines 227 to 273): join orders, customers and items, count rows per
`(product_id, customer_city)`, sort product ascending and count descending,
keep the head 3 of every product group, and collapse each product's city
column to a list. -/
def calculateProductSalesByCity (t : Tables)
    (product_list : Option (List String)) : List TopCitiesRow :=
  let merged := mergeOrdersCustomersItems t.orders t.customers t.order_items
  let product_city_sales : List CitySalesRow :=
    (listGroupBy ltStrStr
      (fun p => (p.2.2.product_id, p.2.1.customer_city)) merged).map
        fun kg => ⟨kg.1.1, kg.1.2, kg.2.length⟩
  let sorted := sSort ltPidCountDesc product_city_sales
  let top3 := headPerKey 3 (fun r => r.product_id) sorted
  let grouped := listGroupBy ltStr (fun r => r.product_id) top3
  let rows : List TopCitiesRow := grouped.map fun kg =>
    ⟨kg.1, kg.2.map fun r => r.customer_city⟩
  filterOnProductList (fun r => r.product_id) rows product_list

/-! ## The Output Assembler -/

/-- A cell of the merged `customer_city` column after `fillna(0)`: either the
city list carried over from the top-cities frame, or the scalar `0` that
`fillna` writes into a missing entry. -/
inductive TopCitiesCell where
  | cityList (cities : List String)
  | zero
deriving DecidableEq, Repr

/-- One row of the assembled output frame, after `fillna(0)` and
`astype(str)` of the week column. -/
structure OutputRow where
  product_id : String
  order_purchase_week : String
  sum : Rat
  count : Rat
  mean_product_rating : Rat
  top_cities : TopCitiesCell
deriving DecidableEq, Repr

/-- Row of the outer merge of summary and ratings; fields missing on one side
are `none` (pandas `NaN`). -/
structure SRRow where
  product_id : String
  week : Option String
  sum : Option Rat
  count : Option Nat
  mean : Option Rat
deriving DecidableEq, Repr

/-- Row of the second outer merge, adding the top-cities column. -/
structure SRCRow where
  product_id : String
  week : Option String
  sum : Option Rat
  count : Option Nat
  mean : Option Rat
  cities : Option (List String)
deriving DecidableEq, Repr

/-- Key set of an outer merge: all keys of both sides, deduplicated and
sorted (pandas sorts the join keys of an outer merge). -/
def outerKeys (ka kb : List String) : List String :=
  sSort ltStr (dedupFirst (ka ++ kb))

/-- Outer merge of the summary and ratings frames on `product_id`
(`etl.py` line 131): per key, the cartesian product of both key groups, with
`NaN` for the side where the key is absent. -/
def mergeSummaryRatings (s : List SummaryRow) (r : List RatingRow) :
    List SRRow :=
  (outerKeys (s.map fun x => x.product_id) (r.map fun x => x.product_id)).flatMap
    fun k =>
      let ls := s.filter fun x => x.product_id = k
      let rs := r.filter fun x => x.product_id = k
      if ls.isEmpty then
        rs.map fun y => ⟨k, none, none, none, some y.mean_product_rating⟩
      else if rs.isEmpty then
        ls.map fun x => ⟨k, some x.order_purchase_week, some x.sum,
          some x.count, none⟩
      else
        ls.flatMap fun x => rs.map fun y => ⟨k, some x.order_purchase_week,
          some x.sum, some x.count, some y.mean_product_rating⟩

/-- Outer merge with the top-cities frame on `product_id`
(`etl.py` line 132). -/
def mergeWithCities (m : List SRRow) (c : List TopCitiesRow) : List SRCRow :=
  (outerKeys (m.map fun x => x.product_id) (c.map fun x => x.product_id)).flatMap
    fun k =>
      let ls := m.filter fun x => x.product_id = k
      let rs := c.filter fun x => x.product_id = k
      if ls.isEmpty then
        rs.map fun y => ⟨k, none, none, none, none, some y.customer_city⟩
      else if rs.isEmpty then
        ls.map fun x => ⟨k, x.week, x.sum, x.count, x.mean, none⟩
      else
        ls.flatMap fun x => rs.map fun y => ⟨k, x.week, x.sum, x.count, x.mean,
          some y.customer_city⟩

/-- `fillna(0)` and the `astype(str)` of the week column: every missing cell
becomes the scalar `0`, which the string cast of the week column renders as
`"0"`. -/
def fillRow (x : SRCRow) : OutputRow :=
  ⟨x.product_id,
    match x.week with | some w => w | none => "0",
    x.sum.getD 0,
    match x.count with | some n => (n : Rat) | none => 0,
    x.mean.getD 0,
    match x.cities with | some cs => .cityList cs | none => .zero⟩

/-- The Output Assembler `DataCalculator.calculate_index`
(`etl.py` lines 116 to 138): run the three aggregators, outer-merge them on
`product_id`, fill missing cells with `0`, and cast the week column to
string. -/
def calculateIndex (t : Tables) (product_list : Option (List String)) :
    List OutputRow :=
  (mergeWithCities
    (mergeSummaryRatings (calculateSummary t product_list)
      (calculateProductRatings t product_list))
    (calculateProductSalesByCity t product_list)).map fillRow

/-- The mutable state of a `DataCalculator`: the four loaded tables and the
`_output` frame, empty until `calculate_index` stores its result. -/
structure CalcState where
  tables : Tables
  output : List OutputRow
deriving DecidableEq, Repr

/-- One call of `calculate_index`, as a state transformer: it reads only the
input tables and replaces `_output`. -/
def calculateIndexState (product_list : Option (List String))
    (s : CalcState) : CalcState :=
  ⟨s.tables, calculateIndex s.tables product_list⟩

/-! ## Concrete example tables -/

/-- The single-order scenario of the specification: one order on Monday
2023-01-02 by customer `c1` in city `sp`, one item of product `p1` at price
10, one review with score 5. -/
def exTables : Tables :=
  ⟨[⟨"c1", "sp"⟩], [⟨"o1", "p1", 10⟩], [⟨"o1", "c1", ⟨2023, 1, 2⟩⟩],
    [⟨"o1", 5⟩]⟩

/-- The pipeline on the scenario tables produces exactly the rows the
specification describes (rational-valued cells are not compared here, since
rational arithmetic does not reduce in the kernel; the later claim theorems
cover them). -/
theorem exTables_pipeline :
    (calculateSummary exTables none).map
        (fun r => (r.product_id, r.order_purchase_week, r.count)) =
      [("p1", "2023-01-08", 1)] ∧
    (calculateProductRatings exTables none).map (fun r => r.product_id) =
      ["p1"] ∧
    calculateProductSalesByCity exTables none = [⟨"p1", ["sp"]⟩] ∧
    (calculateIndex exTables none).map
        (fun r => (r.product_id, r.order_purchase_week, r.top_cities)) =
      [("p1", "2023-01-08", TopCitiesCell.cityList ["sp"])] := by
  refine ⟨?_, ?_, ?_, ?_⟩ <;> decide

/-! ## Claim C7: determinism and idempotence -/

/-- Claim C7: the pipeline is deterministic and idempotent.  Running
`calculate_index` a second time on the state left by the first run stores an
output identical to the first (list-identical, hence equal as a row set):
the aggregators read only the input tables, never `_output`. -/
theorem calculateIndex_idempotent (product_list : Option (List String))
    (s : CalcState) :
    (calculateIndexState product_list (calculateIndexState product_list s)).output
      = (calculateIndexState product_list s).output := rfl

/-! ## Claim C6: the allow-list filter -/

theorem mem_of_mem_filterOnProductList (pid : α → String) (l : List α)
    (pl : Option (List String)) (a : α) (h : a ∈ filterOnProductList pid l pl) :
    a ∈ l := by
  cases pl with
  | none => exact h
  | some ps =>
      simp only [filterOnProductList] at h
      split_ifs at h
      · exact h
      · exact (List.mem_filter.mp h).1

theorem mem_filterOnProductList_some (pid : α → String) (l : List α)
    (ps : List String) (a : α) (hne : ps ≠ [])
    (h : a ∈ filterOnProductList pid l (some ps)) : pid a ∈ ps := by
  simp only [filterOnProductList] at h
  rw [if_neg (by simpa using hne)] at h
  simpa using (List.mem_filter.mp h).2

/-- Claim C6: with a non-empty allow-list, a product outside the list appears
in no aggregator output; with an empty or absent list the filter is the
identity, so each aggregator returns its unfiltered output. -/
theorem allowList_filter (t : Tables) (ps : List String) (p : String)
    (hne : ps ≠ []) (hp : p ∉ ps) :
    (∀ r ∈ calculateSummary t (some ps), r.product_id ≠ p) ∧
    (∀ r ∈ calculateProductRatings t (some ps), r.product_id ≠ p) ∧
    (∀ r ∈ calculateProductSalesByCity t (some ps), r.product_id ≠ p) ∧
    calculateSummary t (some []) = calculateSummary t none ∧
    calculateProductRatings t (some []) = calculateProductRatings t none ∧
    calculateProductSalesByCity t (some []) = calculateProductSalesByCity t none
    := by
  refine ⟨fun r hr he => ?_, fun r hr he => ?_, fun r hr he => ?_, rfl, rfl, rfl⟩
  · exact hp (he ▸ mem_filterOnProductList_some _ _ ps r hne hr)
  · exact hp (he ▸ mem_filterOnProductList_some _ _ ps r hne hr)
  · exact hp (he ▸ mem_filterOnProductList_some _ _ ps r hne hr)

/-- Witness for claim C6 at the scenario tables, the allow-list `["x"]` and
the excluded product `p1`. -/
theorem allowList_filter_witness :
    (["x"] ≠ ([] : List String) ∧ "p1" ∉ ["x"]) ∧
    ((∀ r ∈ calculateSummary exTables (some ["x"]), r.product_id ≠ "p1") ∧
    (∀ r ∈ calculateProductRatings exTables (some ["x"]), r.product_id ≠ "p1") ∧
    (∀ r ∈ calculateProductSalesByCity exTables (some ["x"]),
      r.product_id ≠ "p1") ∧
    calculateSummary exTables (some []) = calculateSummary exTables none ∧
    calculateProductRatings exTables (some []) =
      calculateProductRatings exTables none ∧
    calculateProductSalesByCity exTables (some []) =
      calculateProductSalesByCity exTables none) :=
  ⟨⟨by decide, by decide⟩,
    allowList_filter exTables ["x"] "p1" (by decide) (by decide)⟩

/-! ## Claim C9: missing join key -/

/-- Failure kinds of the pipeline.  The specification calls the fatal
missing-join-key failure a `ConfigurationError`; in the code it is the
`KeyError` that `pd.merge` raises when the `on` column is absent from either
frame. -/
inductive EtlError where
  | keyError (col : String)
deriving DecidableEq, Repr

/-- Guard of `pd.merge(left, right, on=key)`: the key column must be present
in both frames, else the merge raises before producing anything. -/
def requireKey (leftCols rightCols : List String) (k : String) :
    Except EtlError Unit :=
  if k ∈ leftCols ∧ k ∈ rightCols then .ok () else .error (.keyError k)

/-- `calculate_summary` with the column sets of the two frames made explicit:
the first step (`etl.py` lines 169 to 171) merges orders and items on
`order_id`, so a missing key column aborts the whole computation. -/
def calculateSummaryChecked (ordersCols itemsCols : List String) (t : Tables)
    (product_list : Option (List String)) : Except EtlError (List SummaryRow) :=
  match requireKey ordersCols itemsCols "order_id" with
  | .error e => .error e
  | .ok _ => .ok (calculateSummary t product_list)

/-- Claim C9: when the declared join key `order_id` is absent from either
side, the join fails with the fatal missing-key error (the spec's
`ConfigurationError`) and no aggregation result is produced. -/
theorem summaryChecked_missing_key (ordersCols itemsCols : List String)
    (t : Tables) (product_list : Option (List String))
    (h : "order_id" ∉ ordersCols ∨ "order_id" ∉ itemsCols) :
    calculateSummaryChecked ordersCols itemsCols t product_list =
      .error (.keyError "order_id") := by
  unfold calculateSummaryChecked requireKey
  rcases h with h | h <;> rw [if_neg (by tauto)]

/-- Witness for claim C9: an orders frame lacking `order_id`. -/
theorem summaryChecked_missing_key_witness :
    ("order_id" ∉ ["customer_id"] ∨
        "order_id" ∉ ["order_id", "product_id", "price"]) ∧
    calculateSummaryChecked ["customer_id"] ["order_id", "product_id", "price"]
        exTables none = .error (.keyError "order_id") :=
  ⟨Or.inl (by decide),
    summaryChecked_missing_key _ _ exTables none (Or.inl (by decide))⟩

/-! ## Claim C2: the city-breakdown invariant -/

/-- Modelled from the spec: one entry of a `CityBreakdown` (spec section 3),
the repository's second pipeline variant that carries the nested per-city
structure is not under `src/`. -/
structure CityEntry where
  customer_city : String
  sales_count : Nat
  sales_sum : Rat
deriving DecidableEq, Repr

/-- Modelled from the spec: a `SummaryRow` of the variant carrying a
`CityBreakdown` (spec sections 3 and 4.3); that variant of the repository is
not under `src/`.  `total_count` and `total_sum` aggregate all joined rows of
the `(product, week)` group, which by the grouping of spec step 2 equals the
sum of the per-city partial aggregates. -/
structure SummaryBreakdownRow where
  product_id : String
  order_purchase_week : String
  total_count : Nat
  total_sum : Rat
  city_breakdown : List CityEntry
deriving DecidableEq, Repr, Inhabited

/-- Modelled from the spec (section 4.3): join orders, customers and items;
bucket by week; group by `(product, city, week)` into per-city partial
aggregates; regroup by `(product, week)` accumulating the city breakdown.
The per-city partials of one `(product, week)` group are exactly the
city-partition of that group's joined rows. -/
def calculateSummaryWithBreakdown (t : Tables) : List SummaryBreakdownRow :=
  let merged := mergeOrdersCustomersItems t.orders t.customers t.order_items
  let grouped := listGroupBy ltStrNat
    (fun p => (p.2.2.product_id, weekKey p.1)) merged
  grouped.map fun kg =>
    let cities := listGroupBy ltStr (fun p => p.2.1.customer_city) kg.2
    ⟨kg.1.1, formatDate (civilFromDays kg.1.2), kg.2.length,
      (kg.2.map fun p => p.2.2.price).sum,
      cities.map fun cg => ⟨cg.1, cg.2.length, (cg.2.map fun p => p.2.2.price).sum⟩⟩

/-- Claim C2: in every summary row carrying a city breakdown, the per-city
sales counts sum to the row's `total_count` and the per-city sales sums to
its `total_sum`. -/
theorem cityBreakdown_invariant (t : Tables) (row : SummaryBreakdownRow)
    (hrow : row ∈ calculateSummaryWithBreakdown t) :
    ((row.city_breakdown.map fun e => e.sales_count).sum = row.total_count) ∧
    ((row.city_breakdown.map fun e => e.sales_sum).sum = row.total_sum) := by
  unfold calculateSummaryWithBreakdown at hrow
  rw [List.mem_map] at hrow
  obtain ⟨kg, hkg, rfl⟩ := hrow
  dsimp only
  constructor
  · rw [List.map_map]
    exact listGroupBy_length_sum ltStr (fun p => p.2.1.customer_city) kg.2
  · rw [List.map_map]
    exact listGroupBy_sum ltStr (fun p => p.2.1.customer_city)
      (fun p => p.2.2.price) kg.2

/-- Witness for claim C2 at the scenario tables (the first summary row). -/
theorem cityBreakdown_invariant_witness :
    (calculateSummaryWithBreakdown exTables).head! ∈
        calculateSummaryWithBreakdown exTables ∧
    (((calculateSummaryWithBreakdown exTables).head!.city_breakdown.map
        fun e => e.sales_count).sum =
      (calculateSummaryWithBreakdown exTables).head!.total_count ∧
    ((calculateSummaryWithBreakdown exTables).head!.city_breakdown.map
        fun e => e.sales_sum).sum =
      (calculateSummaryWithBreakdown exTables).head!.total_sum) :=
  have hne : calculateSummaryWithBreakdown exTables ≠ [] := by decide
  ⟨List.head!_mem_self hne,
    cityBreakdown_invariant exTables _ (List.head!_mem_self hne)⟩

/-! ## Claim C3: the "unknown" sentinel is unreachable

`calculate_summary` parses `order_purchase_timestamp` and buckets by week.
A missing value becomes `NaT`; the weekly grouper silently drops rows whose
key is `NaT` (groupby excludes null keys), and `.dt.strftime` never renders
the literal string `"NaT"`, so the `.replace("NaT", "unknown")` on line 188
can never fire.  `OrderRowRaw` models the orders frame before the pandera
coercion, with a possibly missing timestamp, to exercise that path. -/

/-- An orders row whose timestamp may be missing (`NaT`). -/
structure OrderRowRaw where
  order_id : String
  customer_id : String
  order_purchase_timestamp : Option Date
deriving DecidableEq, Repr

/-- Inner join of raw orders and order items on `order_id`. -/
def mergeOrdersItemsRaw (orders : List OrderRowRaw)
    (items : List OrderItemRow) : List (OrderRowRaw × OrderItemRow) :=
  orders.flatMap fun o =>
    (items.filter fun it => it.order_id = o.order_id).map fun it => (o, it)

/-- `calculate_summary` on a frame whose timestamps may be `NaT`: the weekly
grouper drops `NaT` rows, and the label column passes through
`.replace("NaT", "unknown")`. -/
def calculateSummaryRaw (orders : List OrderRowRaw)
    (items : List OrderItemRow) (product_list : Option (List String)) :
    List SummaryRow :=
  let merged := mergeOrdersItemsRaw orders items
  let dated := merged.flatMap fun p =>
    match p.1.order_purchase_timestamp with
    | some d => [(p.1, p.2, d)]
    | none => []
  let grouped := listGroupBy ltStrNat
    (fun q => (q.2.1.product_id, weekEndDay (daysFromCivil q.2.2))) dated
  let rows : List SummaryRow := grouped.map fun kg =>
    ⟨kg.1.1,
      if formatDate (civilFromDays kg.1.2) = "NaT" then "unknown"
      else formatDate (civilFromDays kg.1.2),
      (kg.2.map fun q => q.2.1.price).sum, kg.2.length⟩
  filterOnProductList (fun r => r.product_id) rows product_list

/-- A formatted date is a ten-character string, so it is neither the literal
`"NaT"` nor `"unknown"`. -/
theorem formatDate_ne (c : Date) :
    formatDate c ≠ "NaT" ∧ formatDate c ≠ "unknown" := by
  constructor <;>
    · intro h
      have := congrArg (fun s => s.data.length) h
      simp [formatDate, pad4, pad2] at this

/-- Claim C3 (behaviour at the failing input): the label `"unknown"` never
appears in any summary row, and an order with a missing timestamp is dropped
by the weekly grouper instead of being labelled `"unknown"`; the
`.replace("NaT", "unknown")` is dead code. -/
theorem summaryRaw_no_unknown :
    (∀ (orders : List OrderRowRaw) (items : List OrderItemRow)
        (product_list : Option (List String)) (r : SummaryRow),
        r ∈ calculateSummaryRaw orders items product_list →
          r.order_purchase_week ≠ "unknown") ∧
    calculateSummaryRaw [⟨"o1", "c1", none⟩] [⟨"o1", "p1", 10⟩] none = [] := by
  constructor
  · intro orders items product_list r hr
    have hr2 := mem_of_mem_filterOnProductList _ _ _ _ hr
    rw [List.mem_map] at hr2
    obtain ⟨kg, _, rfl⟩ := hr2
    dsimp only
    split_ifs with hnat
    · exact absurd hnat (formatDate_ne _).1
    · exact (formatDate_ne _).2
  · decide

/-- Witness for claim C3: on a parseable timestamp the produced label is a
real date, not `"unknown"`. -/
theorem summaryRaw_no_unknown_witness :
    ((calculateSummaryRaw [⟨"o1", "c1", some ⟨2023, 1, 2⟩⟩]
        [⟨"o1", "p1", 10⟩] none).head! ∈
      calculateSummaryRaw [⟨"o1", "c1", some ⟨2023, 1, 2⟩⟩]
        [⟨"o1", "p1", 10⟩] none) ∧
    (calculateSummaryRaw [⟨"o1", "c1", some ⟨2023, 1, 2⟩⟩]
        [⟨"o1", "p1", 10⟩] none).head!.order_purchase_week ≠ "unknown" :=
  have hne : calculateSummaryRaw [⟨"o1", "c1", some ⟨2023, 1, 2⟩⟩]
      [⟨"o1", "p1", 10⟩] none ≠ [] := by decide
  ⟨List.head!_mem_self hne,
    summaryRaw_no_unknown.1 _ _ _ _ (List.head!_mem_self hne)⟩

/-! ## Claim C8: the partitioned writer drops rows

`save_output_to_parquet` computes `num_partitions = max(1, n // 1024)` over
the `n` unique product ids and writes slices `[i*1024, (i+1)*1024)`; when
`n > 1024` and `1024` does not divide `n`, the tail ids are in no slice and
their rows are silently never written. -/

/-- The unique product ids of the output, in first-occurrence order, as
`Series.unique` returns them (`etl.py` line 289). -/
def uniqueProductIds (rows : List OutputRow) : List String :=
  dedupFirst (rows.map fun r => r.product_id)

/-- `max(1, n // 1024)` (`etl.py` line 290). -/
def numPartitions (n : Nat) : Nat :=
  max 1 (n / 1024)

/-- The ids covered by the written partitions: slice `i` holds the ids with
index in `[i*1024, (i+1)*1024)` (`etl.py` lines 292 to 298). -/
def savedIds (ids : List String) : List String :=
  (List.range (numPartitions ids.length)).flatMap fun i =>
    (ids.drop (i * 1024)).take 1024

/-- The rows the partitioned writer actually persists: those whose
product id lies in a written slice. -/
def savedRows (rows : List OutputRow) : List OutputRow :=
  rows.filter fun r => r.product_id ∈ savedIds (uniqueProductIds rows)

theorem range_flatMap_slices (k : Nat) :
    ∀ (m : Nat) (l : List α),
      (List.range m).flatMap (fun i => (l.drop (i * k)).take k) =
        l.take (m * k) := by
  intro m
  induction m with
  | zero => intro l; simp
  | succ m ih =>
      intro l
      rw [List.range_succ, List.flatMap_append, ih]
      simp only [List.flatMap_cons, List.flatMap_nil, List.append_nil]
      rw [← List.take_add]
      congr 1
      ring

/-- Claim C8 (refuted by the code): the written slices cover exactly the
first `num_partitions * 1024` unique ids; with 1025 unique ids only 1024 are
written, and index 1024 lies in none of the slice ranges the claim
describes. -/
theorem savedIds_drop_tail :
    (∀ ids : List String,
      savedIds ids = ids.take (numPartitions ids.length * 1024)) ∧
    (∀ ids : List String, ids.length = 1025 →
      (savedIds ids).length = 1024 ∧ savedIds ids ≠ ids) ∧
    ¬ ∃ i, i < numPartitions 1025 ∧ i * 1024 ≤ 1024 ∧ 1024 < (i + 1) * 1024
    := by
  have hslice : ∀ ids : List String,
      savedIds ids = ids.take (numPartitions ids.length * 1024) :=
    fun ids => range_flatMap_slices 1024 (numPartitions ids.length) ids
  refine ⟨hslice, fun ids hlen => ?_, ?_⟩
  · have h1 : numPartitions ids.length = 1 := by
      rw [hlen]; decide
    constructor
    · rw [hslice, h1, List.length_take, hlen]
      omega
    · intro he
      have := congrArg List.length he
      rw [hslice, h1, List.length_take, hlen] at this
      omega
  · rintro ⟨i, hi, hlo, hhi⟩
    have : numPartitions 1025 = 1 := by decide
    omega

/-- A list of 1025 distinct product ids (zero-padded decimal strings). -/
def idsExample : List String :=
  (List.range 1025).map fun i => String.mk (pad4 i)

/-- Witness for claim C8: with 1025 unique product ids the writer persists
only 1024 of them. -/
theorem savedIds_drop_tail_witness :
    idsExample.length = 1025 ∧ (savedIds idsExample).length = 1024 ∧
      savedIds idsExample ≠ idsExample :=
  have hlen : idsExample.length = 1025 := by
    simp [idsExample]
  ⟨hlen, (savedIds_drop_tail.2.1 idsExample hlen).1,
    (savedIds_drop_tail.2.1 idsExample hlen).2⟩

/-! ## Claim C10: accessors return defensive copies

DataFrame objects live in a heap of references; `df.copy()` allocates a
fresh reference holding the same contents.  The accessors `get_output`
(`etl.py` line 114) and the table properties (via `ABObject.df` in
`base_schema.py` and its per-table overrides; `OrdersObject.df` is not under
`src/` and is modelled from the spec after its three identical siblings)
all return `self._df.copy()` or `self._output.copy()`. -/

/-- A heap of DataFrame objects: an allocation bound and the contents at
every reference. -/
structure Heap (Df : Type) where
  next : Nat
  mem : Nat → Df

/-- Allocate a fresh object with contents `v` (what `copy()` does). -/
def Heap.alloc {Df : Type} (h : Heap Df) (v : Df) : Nat × Heap Df :=
  (h.next, ⟨h.next + 1, fun r => if r = h.next then v else h.mem r⟩)

/-- Mutate the object at reference `r` in place. -/
def Heap.write {Df : Type} (h : Heap Df) (r : Nat) (v : Df) : Heap Df :=
  ⟨h.next, fun x => if x = r then v else h.mem x⟩

/-- Apply a sequence of external mutations. -/
def applyWrites {Df : Type} (h : Heap Df) (ws : List (Nat × Df)) : Heap Df :=
  ws.foldl (fun hh w => hh.write w.1 w.2) h

/-- The five internal references a `DataCalculator` holds: the four table
frames and `_output`. -/
structure CalcRefs where
  customersRef : Nat
  itemsRef : Nat
  ordersRef : Nat
  reviewsRef : Nat
  outputRef : Nat
deriving DecidableEq, Repr

/-- The internal reference list. -/
def CalcRefs.internals (c : CalcRefs) : List Nat :=
  [c.customersRef, c.itemsRef, c.ordersRef, c.reviewsRef, c.outputRef]

/-- Well-formedness: the internal references are allocated. -/
def CalcRefs.wf {Df : Type} (c : CalcRefs) (h : Heap Df) : Prop :=
  ∀ r ∈ c.internals, r < h.next

/-- An accessor `return self._df.copy()`: read the internal reference and
allocate a fresh copy of its contents. -/
def readCopy {Df : Type} (ref : Nat) (h : Heap Df) : Nat × Heap Df :=
  h.alloc (h.mem ref)

theorem applyWrites_mem {Df : Type} (ws : List (Nat × Df)) :
    ∀ (h : Heap Df) (r : Nat), (∀ w ∈ ws, w.1 ≠ r) →
      (applyWrites h ws).mem r = h.mem r := by
  induction ws with
  | nil => intro h r _; rfl
  | cons w ws ih =>
      intro h r hr
      have h1 : (h.write w.1 w.2).mem r = h.mem r := by
        unfold Heap.write
        simp only
        rw [if_neg (fun he => hr w (List.mem_cons_self w ws) he.symm)]
      calc (applyWrites h (w :: ws)).mem r
          = (applyWrites (h.write w.1 w.2) ws).mem r := rfl
        _ = (h.write w.1 w.2).mem r :=
            ih _ r (fun x hx => hr x (List.mem_cons_of_mem w hx))
        _ = h.mem r := h1

/-- Claim C10: every accessor returns a fresh copy: the returned reference is
none of the calculator's internal references, and after any sequence of
mutations of references outside the internals (in particular of returned
copies, which are fresh), the contents at every internal reference, hence
the result of every later accessor call, are unchanged. -/
theorem accessor_defensive (Df : Type) (c : CalcRefs) (h : Heap Df)
    (hwf : c.wf h) (accRef : Nat) (_hacc : accRef ∈ c.internals)
    (ws : List (Nat × Df)) (hws : ∀ w ∈ ws, w.1 ∉ c.internals) :
    (readCopy accRef h).1 ∉ c.internals ∧
    (∀ r ∈ c.internals,
      (applyWrites (readCopy accRef h).2 ws).mem r = h.mem r) := by
  constructor
  · intro hmem
    exact absurd (hwf _ hmem) (lt_irrefl _)
  · intro r hr
    have h1 : ((readCopy accRef h).2).mem r = h.mem r := by
      unfold readCopy Heap.alloc
      simp only
      rw [if_neg (fun he => absurd (hwf r hr) (by omega))]
    rw [applyWrites_mem ws _ r (fun w hw he => hws w hw (he ▸ hr)), h1]

/-- Witness for claim C10 at a concrete five-reference calculator. -/
theorem accessor_defensive_witness :
    ((⟨0, 1, 2, 3, 4⟩ : CalcRefs).wf (⟨5, fun _ => 0⟩ : Heap Nat) ∧
      4 ∈ (⟨0, 1, 2, 3, 4⟩ : CalcRefs).internals ∧
      (∀ w ∈ [((5 : Nat), (7 : Nat))],
        w.1 ∉ (⟨0, 1, 2, 3, 4⟩ : CalcRefs).internals)) ∧
    ((readCopy 4 (⟨5, fun _ => 0⟩ : Heap Nat)).1 ∉
        (⟨0, 1, 2, 3, 4⟩ : CalcRefs).internals ∧
      (∀ r ∈ (⟨0, 1, 2, 3, 4⟩ : CalcRefs).internals,
        (applyWrites (readCopy 4 (⟨5, fun _ => 0⟩ : Heap Nat)).2
          [((5 : Nat), (7 : Nat))]).mem r =
          (⟨5, fun _ => 0⟩ : Heap Nat).mem r)) :=
  ⟨⟨by unfold CalcRefs.wf CalcRefs.internals; decide, by decide, by decide⟩,
    accessor_defensive Nat ⟨0, 1, 2, 3, 4⟩ ⟨5, fun _ => 0⟩
      (by unfold CalcRefs.wf CalcRefs.internals; decide) 4
      (by decide) [((5 : Nat), (7 : Nat))] (by decide)⟩

/-! ## Claim C1: shape of the assembled output

Counting lemmas for the outer merges. -/

theorem countP_eq_count_map (l : List β) (pid : β → String) (p : String) :
    (l.countP fun x => pid x = p) = (l.map pid).count p := by
  induction l with
  | nil => rfl
  | cons a as ih =>
      rw [List.countP_cons, List.map_cons, List.count_cons, ih]
      by_cases h : pid a = p <;> simp [h]

theorem countP_le_one_of_nodup (l : List β) (pid : β → String) (p : String)
    (h : (l.map pid).Nodup) : (l.countP fun x => pid x = p) ≤ 1 := by
  rw [countP_eq_count_map]
  exact List.nodup_iff_count_le_one.mp h p

theorem mem_map_iff_countP_pos (l : List β) (pid : β → String) (p : String) :
    p ∈ l.map pid ↔ 0 < l.countP fun x => pid x = p := by
  rw [List.countP_pos_iff, List.mem_map]
  constructor
  · rintro ⟨a, ha, he⟩
    exact ⟨a, ha, by simp [he]⟩
  · rintro ⟨a, ha, he⟩
    exact ⟨a, ha, by simpa using he⟩

theorem countP_flatMap_keys (ks : List String) (f : String → List β)
    (pid : β → String) (hf : ∀ k, ∀ b ∈ f k, pid b = k) (p : String) :
    ∀ (hnd : ks.Nodup),
    ((ks.flatMap f).countP fun b => pid b = p) =
      if p ∈ ks then (f p).length else 0 := by
  induction ks with
  | nil => simp
  | cons k ks ih =>
      intro hnd
      rw [List.nodup_cons] at hnd
      rw [List.flatMap_cons, List.countP_append, ih hnd.2]
      by_cases hkp : k = p
      · subst hkp
        rw [List.countP_eq_length.mpr (fun b hb => by simp [hf k b hb]),
          if_pos (List.mem_cons_self k ks), if_neg hnd.1]
        omega
      · rw [List.countP_eq_zero.mpr (fun b hb => by simp [hf k b hb, hkp])]
        have hpk : ¬ p = k := fun he => hkp he.symm
        simp [List.mem_cons, hpk]

theorem length_flatMap_map (ls : List γ) (rs : List δ) (g : γ → δ → β) :
    (ls.flatMap fun x => rs.map (g x)).length = ls.length * rs.length := by
  induction ls with
  | nil => simp
  | cons a as ih => simp [ih, Nat.succ_mul, Nat.add_comm]

theorem mem_outerKeys (ka kb : List String) (p : String) :
    p ∈ outerKeys ka kb ↔ p ∈ ka ∨ p ∈ kb := by
  rw [outerKeys, mem_sSort, mem_dedupFirst, List.mem_append]

theorem nodup_outerKeys (ka kb : List String) : (outerKeys ka kb).Nodup :=
  nodup_sSort _ _ (nodup_dedupFirst _)

/-- Every row the summary-ratings merge emits under key `k` carries
`product_id = k`. -/
theorem mergeSummaryRatings_pid (s : List SummaryRow) (r : List RatingRow)
    (k : String) (b : SRRow)
    (hb : b ∈ (let ls := s.filter fun x => x.product_id = k
           let rs := r.filter fun x => x.product_id = k
           if ls.isEmpty then
             rs.map fun y => (⟨k, none, none, none,
               some y.mean_product_rating⟩ : SRRow)
           else if rs.isEmpty then
             ls.map fun x => ⟨k, some x.order_purchase_week, some x.sum,
               some x.count, none⟩
           else
             ls.flatMap fun x => rs.map fun y => ⟨k, some x.order_purchase_week,
               some x.sum, some x.count, some y.mean_product_rating⟩)) :
    b.product_id = k := by
  dsimp only at hb
  split_ifs at hb
  · obtain ⟨y, _, rfl⟩ := List.mem_map.mp hb
    rfl
  · obtain ⟨x, _, rfl⟩ := List.mem_map.mp hb
    rfl
  · obtain ⟨x, _, hx⟩ := List.mem_flatMap.mp hb
    obtain ⟨y, _, rfl⟩ := List.mem_map.mp hx
    rfl

/-- Number of merged rows per product: the product of the two group sizes,
with an absent side counting as one row of fill. -/
theorem countP_mergeSummaryRatings (s : List SummaryRow) (r : List RatingRow)
    (p : String)
    (hr : (r.countP fun x => x.product_id = p) ≤ 1) :
    ((mergeSummaryRatings s r).countP fun x => x.product_id = p) =
      if p ∈ s.map (fun x => x.product_id) then
        s.countP fun x => x.product_id = p
      else if p ∈ r.map (fun x => x.product_id) then 1 else 0 := by
  rw [mergeSummaryRatings,
    countP_flatMap_keys _ _ _ (fun k b hb => mergeSummaryRatings_pid s r k b hb)
      p (nodup_outerKeys _ _)]
  have hs := (mem_map_iff_countP_pos s (fun x => x.product_id) p)
  have hrm := (mem_map_iff_countP_pos r (fun x => x.product_id) p)
  have hls : (s.filter fun x => x.product_id = p).length =
      s.countP fun x => x.product_id = p := (List.countP_eq_length_filter _ _).symm
  have hrs : (r.filter fun x => x.product_id = p).length =
      r.countP fun x => x.product_id = p := (List.countP_eq_length_filter _ _).symm
  by_cases hmem : p ∈ outerKeys (s.map fun x => x.product_id)
      (r.map fun x => x.product_id)
  · rw [if_pos hmem]
    dsimp only
    by_cases h1 : (s.filter fun x => x.product_id = p).isEmpty = true
    · have hc0 : (s.countP fun x => x.product_id = p) = 0 := by
        rw [← hls, List.isEmpty_iff_length_eq_zero.mp h1]
      rw [if_pos h1, if_neg (fun hm => by have := hs.mp hm; omega),
        List.length_map, hrs]
      by_cases hpr : p ∈ r.map fun x => x.product_id
      · have := hrm.mp hpr
        rw [if_pos hpr]
        omega
      · have : ¬ 0 < r.countP fun x => x.product_id = p :=
          fun hpos => hpr (hrm.mpr hpos)
        rw [if_neg hpr]
        omega
    · have hspos : 0 < s.countP fun x => x.product_id = p := by
        rw [← hls]
        rcases Nat.eq_zero_or_pos (s.filter fun x => x.product_id = p).length
          with hz | hp2
        · exact absurd (List.isEmpty_iff_length_eq_zero.mpr hz) h1
        · exact hp2
      by_cases h2 : (r.filter fun x => x.product_id = p).isEmpty = true
      · rw [if_neg h1, if_pos h2, if_pos (hs.mpr hspos), List.length_map, hls]
      · have hrpos : 0 < r.countP fun x => x.product_id = p := by
          rw [← hrs]
          rcases Nat.eq_zero_or_pos
            (r.filter fun x => x.product_id = p).length with hz | hp2
          · exact absurd (List.isEmpty_iff_length_eq_zero.mpr hz) h2
          · exact hp2
        have hr1 : (r.countP fun x => x.product_id = p) = 1 := by omega
        rw [if_neg h1, if_neg h2, if_pos (hs.mpr hspos), length_flatMap_map,
          hls, hrs, hr1, Nat.mul_one]
  · rw [if_neg hmem]
    rw [mem_outerKeys] at hmem
    push_neg at hmem
    rw [if_neg hmem.1, if_neg hmem.2]

/-- Every row the cities merge emits under key `k` carries
`product_id = k`. -/
theorem mergeWithCities_pid (m : List SRRow) (c : List TopCitiesRow)
    (k : String) (b : SRCRow)
    (hb : b ∈ (let ls := m.filter fun x => x.product_id = k
           let rs := c.filter fun x => x.product_id = k
           if ls.isEmpty then
             rs.map fun y => (⟨k, none, none, none, none,
               some y.customer_city⟩ : SRCRow)
           else if rs.isEmpty then
             ls.map fun x => ⟨k, x.week, x.sum, x.count, x.mean, none⟩
           else
             ls.flatMap fun x => rs.map fun y => ⟨k, x.week, x.sum, x.count,
               x.mean, some y.customer_city⟩)) :
    b.product_id = k := by
  dsimp only at hb
  split_ifs at hb
  · obtain ⟨y, _, rfl⟩ := List.mem_map.mp hb
    rfl
  · obtain ⟨x, _, rfl⟩ := List.mem_map.mp hb
    rfl
  · obtain ⟨x, _, hx⟩ := List.mem_flatMap.mp hb
    obtain ⟨y, _, rfl⟩ := List.mem_map.mp hx
    rfl

/-- Number of rows of the second merge per product. -/
theorem countP_mergeWithCities (m : List SRRow) (c : List TopCitiesRow)
    (p : String)
    (hc : (c.countP fun x => x.product_id = p) ≤ 1) :
    ((mergeWithCities m c).countP fun x => x.product_id = p) =
      if p ∈ m.map (fun x => x.product_id) then
        m.countP fun x => x.product_id = p
      else if p ∈ c.map (fun x => x.product_id) then 1 else 0 := by
  rw [mergeWithCities,
    countP_flatMap_keys _ _ _ (fun k b hb => mergeWithCities_pid m c k b hb)
      p (nodup_outerKeys _ _)]
  have hs := mem_map_iff_countP_pos m (fun x => x.product_id) p
  have hrm := mem_map_iff_countP_pos c (fun x => x.product_id) p
  have hls : (m.filter fun x => x.product_id = p).length =
      m.countP fun x => x.product_id = p := (List.countP_eq_length_filter _ _).symm
  have hrs : (c.filter fun x => x.product_id = p).length =
      c.countP fun x => x.product_id = p := (List.countP_eq_length_filter _ _).symm
  by_cases hmem : p ∈ outerKeys (m.map fun x => x.product_id)
      (c.map fun x => x.product_id)
  · rw [if_pos hmem]
    dsimp only
    by_cases h1 : (m.filter fun x => x.product_id = p).isEmpty = true
    · have hc0 : (m.countP fun x => x.product_id = p) = 0 := by
        rw [← hls, List.isEmpty_iff_length_eq_zero.mp h1]
      rw [if_pos h1, if_neg (fun hm2 => by have := hs.mp hm2; omega),
        List.length_map, hrs]
      by_cases hpr : p ∈ c.map fun x => x.product_id
      · have := hrm.mp hpr
        rw [if_pos hpr]
        omega
      · have : ¬ 0 < c.countP fun x => x.product_id = p :=
          fun hpos => hpr (hrm.mpr hpos)
        rw [if_neg hpr]
        omega
    · have hspos : 0 < m.countP fun x => x.product_id = p := by
        rw [← hls]
        rcases Nat.eq_zero_or_pos (m.filter fun x => x.product_id = p).length
          with hz | hp2
        · exact absurd (List.isEmpty_iff_length_eq_zero.mpr hz) h1
        · exact hp2
      by_cases h2 : (c.filter fun x => x.product_id = p).isEmpty = true
      · rw [if_neg h1, if_pos h2, if_pos (hs.mpr hspos), List.length_map, hls]
      · have hrpos : 0 < c.countP fun x => x.product_id = p := by
          rw [← hrs]
          rcases Nat.eq_zero_or_pos
            (c.filter fun x => x.product_id = p).length with hz | hp2
          · exact absurd (List.isEmpty_iff_length_eq_zero.mpr hz) h2
          · exact hp2
        have hr1 : (c.countP fun x => x.product_id = p) = 1 := by omega
        rw [if_neg h1, if_neg h2, if_pos (hs.mpr hspos), length_flatMap_map,
          hls, hrs, hr1, Nat.mul_one]
  · rw [if_neg hmem]
    rw [mem_outerKeys] at hmem
    push_neg at hmem
    rw [if_neg hmem.1, if_neg hmem.2]

/-- Field shape of the first merge: a product absent from the ratings side
has a missing mean cell, one absent from the summary side has missing week,
sum and count cells. -/
theorem mergeSummaryRatings_fields (s : List SummaryRow) (r : List RatingRow)
    (y : SRRow) (hy : y ∈ mergeSummaryRatings s r) :
    (y.product_id ∉ r.map (fun x => x.product_id) → y.mean = none) ∧
    (y.product_id ∉ s.map (fun x => x.product_id) →
      y.week = none ∧ y.sum = none ∧ y.count = none) := by
  rw [mergeSummaryRatings] at hy
  obtain ⟨k, hk, hb⟩ := List.mem_flatMap.mp hy
  dsimp only at hb
  split_ifs at hb with h1 h2
  · obtain ⟨z, hz, rfl⟩ := List.mem_map.mp hb
    refine ⟨fun hnot => absurd ?_ hnot, fun _ => ⟨rfl, rfl, rfl⟩⟩
    have hz2 := List.mem_filter.mp hz
    exact List.mem_map.mpr ⟨z, hz2.1, by simpa using hz2.2⟩
  · obtain ⟨z, hz, rfl⟩ := List.mem_map.mp hb
    refine ⟨fun _ => rfl, fun hnot => absurd ?_ hnot⟩
    have hz2 := List.mem_filter.mp hz
    exact List.mem_map.mpr ⟨z, hz2.1, by simpa using hz2.2⟩
  · obtain ⟨z, hz, hx⟩ := List.mem_flatMap.mp hb
    obtain ⟨w, hw, rfl⟩ := List.mem_map.mp hx
    constructor
    · intro hnot
      have hw2 := List.mem_filter.mp hw
      exact absurd (List.mem_map.mpr ⟨w, hw2.1, by simpa using hw2.2⟩) hnot
    · intro hnot
      have hz2 := List.mem_filter.mp hz
      exact absurd (List.mem_map.mpr ⟨z, hz2.1, by simpa using hz2.2⟩) hnot

/-- Field shape of the second merge: a product absent from the cities side
has a missing city cell, and the remaining cells either come unchanged from
one first-merge row of the same product or are all missing. -/
theorem mergeWithCities_fields (m : List SRRow) (c : List TopCitiesRow)
    (x : SRCRow) (hx : x ∈ mergeWithCities m c) :
    (x.product_id ∉ c.map (fun z => z.product_id) → x.cities = none) ∧
    ((∃ y ∈ m, y.product_id = x.product_id ∧ x.week = y.week ∧
        x.sum = y.sum ∧ x.count = y.count ∧ x.mean = y.mean) ∨
      (x.week = none ∧ x.sum = none ∧ x.count = none ∧ x.mean = none)) := by
  rw [mergeWithCities] at hx
  obtain ⟨k, hk, hb⟩ := List.mem_flatMap.mp hx
  dsimp only at hb
  split_ifs at hb with h1 h2
  · obtain ⟨z, hz, rfl⟩ := List.mem_map.mp hb
    refine ⟨fun hnot => absurd ?_ hnot, Or.inr ⟨rfl, rfl, rfl, rfl⟩⟩
    have hz2 := List.mem_filter.mp hz
    exact List.mem_map.mpr ⟨z, hz2.1, by simpa using hz2.2⟩
  · obtain ⟨z, hz, rfl⟩ := List.mem_map.mp hb
    have hz2 := List.mem_filter.mp hz
    exact ⟨fun _ => rfl,
      Or.inl ⟨z, hz2.1, by simpa using hz2.2, rfl, rfl, rfl, rfl⟩⟩
  · obtain ⟨z, hz, hx2⟩ := List.mem_flatMap.mp hb
    obtain ⟨w, hw, rfl⟩ := List.mem_map.mp hx2
    have hz2 := List.mem_filter.mp hz
    constructor
    · intro hnot
      have hw2 := List.mem_filter.mp hw
      exact absurd (List.mem_map.mpr ⟨w, hw2.1, by simpa using hw2.2⟩) hnot
    · exact Or.inl ⟨z, hz2.1, by simpa using hz2.2, rfl, rfl, rfl, rfl⟩

/-- The keys of a grouping, projected back out. -/
theorem listGroupBy_keys [DecidableEq κ] (lt : κ → κ → Bool) (key : α → κ)
    (l : List α) :
    (listGroupBy lt key l).map (fun kg => kg.1) = sortedKeys lt key l := by
  unfold listGroupBy
  rw [List.map_map]
  exact (List.map_congr_left fun k _ => rfl).trans (List.map_id _)

/-- Projecting the product column out of rows built one-per-group gives the
sorted distinct keys. -/
theorem map_pid_groupRows [DecidableEq κ] (lt : κ → κ → Bool) (key : α → κ)
    (l : List α) (f : κ × List α → β) (pid : β → κ)
    (hf : ∀ kg, pid (f kg) = kg.1) :
    ((listGroupBy lt key l).map f).map pid = sortedKeys lt key l := by
  rw [List.map_map]
  calc (listGroupBy lt key l).map (pid ∘ f)
      = (listGroupBy lt key l).map (fun kg => kg.1) :=
        List.map_congr_left fun kg _ => hf kg
    _ = sortedKeys lt key l := listGroupBy_keys lt key l

theorem filterOnProductList_sublist (pid : α → String) (l : List α)
    (pl : Option (List String)) : (filterOnProductList pid l pl).Sublist l := by
  cases pl with
  | none => exact List.Sublist.refl l
  | some ps =>
      simp only [filterOnProductList]
      split_ifs
      · exact List.Sublist.refl l
      · exact List.filter_sublist l

/-- The ratings frame has one row per product. -/
theorem ratings_pid_nodup (t : Tables) (pl : Option (List String)) :
    ((calculateProductRatings t pl).map fun x => x.product_id).Nodup := by
  unfold calculateProductRatings
  refine List.Nodup.sublist
    (List.Sublist.map _ (filterOnProductList_sublist _ _ pl)) ?_
  have he := map_pid_groupRows ltStr
    (fun p : OrderRow × OrderReviewRow × OrderItemRow => p.2.2.product_id)
    (mergeOrdersReviewsItems t.orders t.order_reviews t.order_items)
    (fun kg => (⟨kg.1, (kg.2.map fun p => (p.2.1.review_score : Rat)).sum /
      (kg.2.length : Rat)⟩ : RatingRow))
    (fun x => x.product_id) (fun kg => rfl)
  rw [he]
  exact nodup_sortedKeys _ _ _

/-- The top-cities frame has one row per product. -/
theorem cities_pid_nodup (t : Tables) (pl : Option (List String)) :
    ((calculateProductSalesByCity t pl).map fun x => x.product_id).Nodup := by
  unfold calculateProductSalesByCity
  refine List.Nodup.sublist
    (List.Sublist.map _ (filterOnProductList_sublist _ _ pl)) ?_
  have he := map_pid_groupRows ltStr
    (fun r : CitySalesRow => r.product_id)
    (headPerKey 3 (fun r => r.product_id)
      (sSort ltPidCountDesc
        ((listGroupBy ltStrStr
          (fun p => (p.2.2.product_id, p.2.1.customer_city))
          (mergeOrdersCustomersItems t.orders t.customers t.order_items)).map
            fun kg => ⟨kg.1.1, kg.1.2, kg.2.length⟩)))
    (fun kg => (⟨kg.1, kg.2.map fun r => r.customer_city⟩ : TopCitiesRow))
    (fun x => x.product_id) (fun kg => rfl)
  rw [he]
  exact nodup_sortedKeys _ _ _

/-- Claim C1 (amended): a product appearing in any of the three views
appears in the assembled output once per summary row it has (so exactly once
only when it has at most one summary week), and a field absent from a
contributing view is filled with the scalar `0`: the mean becomes `0`, the
week cell the string `"0"`, the sum and count `0`, and a missing top-cities
cell the scalar `0` rather than an empty list; no city-breakdown field
exists in the output at all. -/
theorem calculateIndex_outer_merge (t : Tables) (pl : Option (List String))
    (p : String)
    (hp : p ∈ (calculateSummary t pl).map (fun r => r.product_id) ∨
          p ∈ (calculateProductRatings t pl).map (fun r => r.product_id) ∨
          p ∈ (calculateProductSalesByCity t pl).map (fun r => r.product_id)) :
    ((calculateIndex t pl).countP fun r => r.product_id = p) =
      max 1 ((calculateSummary t pl).countP fun r => r.product_id = p) ∧
    (∀ row ∈ calculateIndex t pl, row.product_id = p →
      (p ∉ (calculateProductRatings t pl).map (fun r => r.product_id) →
        row.mean_product_rating = 0) ∧
      (p ∉ (calculateProductSalesByCity t pl).map (fun r => r.product_id) →
        row.top_cities = .zero) ∧
      (p ∉ (calculateSummary t pl).map (fun r => r.product_id) →
        row.order_purchase_week = "0" ∧ row.sum = 0 ∧ row.count = 0)) := by
  have hrle := countP_le_one_of_nodup (calculateProductRatings t pl)
    (fun x => x.product_id) p (ratings_pid_nodup t pl)
  have hcle := countP_le_one_of_nodup (calculateProductSalesByCity t pl)
    (fun x => x.product_id) p (cities_pid_nodup t pl)
  have hm := countP_mergeSummaryRatings (calculateSummary t pl)
    (calculateProductRatings t pl) p hrle
  have hout := countP_mergeWithCities
    (mergeSummaryRatings (calculateSummary t pl) (calculateProductRatings t pl))
    (calculateProductSalesByCity t pl) p hcle
  have hsmem := mem_map_iff_countP_pos (calculateSummary t pl)
    (fun x => x.product_id) p
  have hrmem := mem_map_iff_countP_pos (calculateProductRatings t pl)
    (fun x => x.product_id) p
  have hcmem := mem_map_iff_countP_pos (calculateProductSalesByCity t pl)
    (fun x => x.product_id) p
  have hmmem := mem_map_iff_countP_pos
    (mergeSummaryRatings (calculateSummary t pl) (calculateProductRatings t pl))
    (fun x => x.product_id) p
  have hcnt : ((calculateIndex t pl).countP fun r => r.product_id = p) =
      ((mergeWithCities (mergeSummaryRatings (calculateSummary t pl)
        (calculateProductRatings t pl)) (calculateProductSalesByCity t pl)).countP
          fun x => x.product_id = p) := by
    rw [calculateIndex, List.countP_map]
    rfl
  constructor
  · rw [hcnt, hout]
    by_cases hps : p ∈ (calculateSummary t pl).map fun x => x.product_id
    · have hspos := hsmem.mp hps
      have hmpos : 0 < (mergeSummaryRatings (calculateSummary t pl)
          (calculateProductRatings t pl)).countP fun x => x.product_id = p := by
        rw [hm, if_pos hps]
        exact hspos
      rw [if_pos (hmmem.mpr hmpos), hm, if_pos hps]
      omega
    · by_cases hpr : p ∈ (calculateProductRatings t pl).map fun x =>
          x.product_id
      · have hmpos : 0 < (mergeSummaryRatings (calculateSummary t pl)
            (calculateProductRatings t pl)).countP
              fun x => x.product_id = p := by
          rw [hm, if_neg hps, if_pos hpr]
          omega
        have hs0 : ((calculateSummary t pl).countP
            fun x => x.product_id = p) = 0 := by
          rcases Nat.eq_zero_or_pos ((calculateSummary t pl).countP
            fun x => x.product_id = p) with hz | hpos
          · exact hz
          · exact absurd (hsmem.mpr hpos) hps
        rw [if_pos (hmmem.mpr hmpos), hm, if_neg hps, if_pos hpr, hs0]
        omega
      · have hpc : p ∈ (calculateProductSalesByCity t pl).map fun x =>
            x.product_id := by
          rcases hp with h | h | h
          · exact absurd h hps
          · exact absurd h hpr
          · exact h
        have hm0 : ((mergeSummaryRatings (calculateSummary t pl)
            (calculateProductRatings t pl)).countP
              fun x => x.product_id = p) = 0 := by
          rw [hm, if_neg hps, if_neg hpr]
        have hs0 : ((calculateSummary t pl).countP
            fun x => x.product_id = p) = 0 := by
          rcases Nat.eq_zero_or_pos ((calculateSummary t pl).countP
            fun x => x.product_id = p) with hz | hpos
          · exact hz
          · exact absurd (hsmem.mpr hpos) hps
        have hnm : p ∉ (mergeSummaryRatings (calculateSummary t pl)
            (calculateProductRatings t pl)).map fun x => x.product_id := by
          intro hmm
          have := hmmem.mp hmm
          omega
        rw [if_neg hnm, if_pos hpc, hs0]
        omega
  · intro row hrow hpid
    rw [calculateIndex, List.mem_map] at hrow
    obtain ⟨x, hx, rfl⟩ := hrow
    have hpx : x.product_id = p := hpid
    obtain ⟨hcities, hfields⟩ := mergeWithCities_fields _ _ x hx
    refine ⟨?_, ?_, ?_⟩
    · intro hnr
      rcases hfields with ⟨y, hy, hypid, _, _, _, hmn⟩ | ⟨_, _, _, hmn⟩
      · have hyn : y.mean = none :=
          (mergeSummaryRatings_fields _ _ y hy).1 (by rw [hypid, hpx]; exact hnr)
        simp [fillRow, hmn, hyn]
      · simp [fillRow, hmn]
    · intro hnc
      have hxc : x.cities = none := hcities (by rw [hpx]; exact hnc)
      simp [fillRow, hxc]
    · intro hns
      rcases hfields with ⟨y, hy, hypid, hw, hsm, hct, _⟩ | ⟨hw, hsm, hct, _⟩
      · obtain ⟨hw2, hs2, hc2⟩ := (mergeSummaryRatings_fields _ _ y hy).2
          (by rw [hypid, hpx]; exact hns)
        exact ⟨by simp [fillRow, hw, hw2], by simp [fillRow, hsm, hs2],
          by simp [fillRow, hct, hc2]⟩
      · exact ⟨by simp [fillRow, hw], by simp [fillRow, hsm],
          by simp [fillRow, hct]⟩

/-- Tables on which one product has sales in two different weeks and no
matching customer or review: Monday 2023-01-02 and Tuesday 2023-01-10 fall in
the weeks ending 2023-01-08 and 2023-01-15. -/
def dupTables : Tables :=
  ⟨[], [⟨"o1", "p1", 10⟩, ⟨"o2", "p1", 5⟩],
    [⟨"o1", "c1", ⟨2023, 1, 2⟩⟩, ⟨"o2", "c1", ⟨2023, 1, 10⟩⟩], []⟩

/-- Counterexample to claim C1 as stated: product `p1` appears twice in the
assembled output (once per summary week), and its missing top-cities cells
are filled with the scalar `0`, not with an empty list. -/
theorem calculateIndex_not_once_per_product :
    ((calculateIndex dupTables none).countP fun r => r.product_id = "p1") = 2 ∧
    (calculateIndex dupTables none).map (fun r => r.top_cities) =
      [.zero, .zero] := by
  constructor
  · decide
  · decide

/-- Witness for the amended claim C1 at the scenario tables. -/
theorem calculateIndex_outer_merge_witness :
    ("p1" ∈ (calculateSummary exTables none).map (fun r => r.product_id) ∨
      "p1" ∈ (calculateProductRatings exTables none).map
        (fun r => r.product_id) ∨
      "p1" ∈ (calculateProductSalesByCity exTables none).map
        (fun r => r.product_id)) ∧
    ((calculateIndex exTables none).countP fun r => r.product_id = "p1") =
      max 1 ((calculateSummary exTables none).countP
        fun r => r.product_id = "p1") :=
  ⟨Or.inl (by decide),
    (calculateIndex_outer_merge exTables none "p1" (Or.inl (by decide))).1⟩

/-! ## Claim C4: order and length of the top-cities lists -/

/-- Grouping lists the distinct `(product, city)` keys in strictly ascending
lexicographic order. -/
theorem pairwise_sortedKeys_ltStrStr (key : α → String × String)
    (l : List α) :
    (sortedKeys ltStrStr key l).Pairwise
      (fun k1 k2 => ltStrStr k1 k2 = true) := by
  have hp := pairwise_sSort_stable ltStrStr (fun a b => a ≠ b) ltStrStr_asymm
    ltStrStr_neg_trans (dedupFirst (l.map key)) (nodup_dedupFirst _)
  refine hp.imp ?_
  intro a b h
  rcases h with h | ⟨h1, h2, hne⟩
  · exact h
  · exact absurd (ltStrStr_eq_of_both_false a b h1 h2) hne

/-- The per-(product, city) sales-count frame lists its rows in grouping
order: keys lexicographically ascending. -/
theorem pairwise_productCitySales (t : Tables) :
    ((listGroupBy ltStrStr
        (fun p => (p.2.2.product_id, p.2.1.customer_city))
        (mergeOrdersCustomersItems t.orders t.customers t.order_items)).map
          (fun kg => (⟨kg.1.1, kg.1.2, kg.2.length⟩ : CitySalesRow))).Pairwise
      (fun a b => ltStrStr (a.product_id, a.customer_city)
        (b.product_id, b.customer_city) = true) := by
  unfold listGroupBy
  rw [List.map_map, List.pairwise_map]
  have hp := pairwise_sortedKeys_ltStrStr
    (fun p => (p.2.2.product_id, p.2.1.customer_city))
    (mergeOrdersCustomersItems t.orders t.customers t.order_items)
  refine hp.imp ?_
  intro k1 k2 h
  simpa using h

/-- Every row of the per-(product, city) frame counts exactly the joined
rows bearing its key. -/
theorem mem_productCitySales_count (t : Tables) (a : CitySalesRow)
    (ha : a ∈ (listGroupBy ltStrStr
        (fun p => (p.2.2.product_id, p.2.1.customer_city))
        (mergeOrdersCustomersItems t.orders t.customers t.order_items)).map
          (fun kg => (⟨kg.1.1, kg.1.2, kg.2.length⟩ : CitySalesRow))) :
    a.sales_count = ((mergeOrdersCustomersItems t.orders t.customers
      t.order_items).filter
        (fun p => (p.2.2.product_id, p.2.1.customer_city) =
          (a.product_id, a.customer_city))).length := by
  rw [List.mem_map] at ha
  obtain ⟨⟨k, g⟩, hkg, rfl⟩ := ha
  rw [mem_listGroupBy] at hkg
  obtain ⟨hk, rfl⟩ := hkg
  simp

/-- Claim C4: every row of the Top-Cities Aggregator lists at most three
cities, and those cities carry the per-(product, city) sales counts of that
product in sales-count-descending order; on equal counts the cities keep the
original grouping order (city ascending), which the stable multi-key
`sort_values` preserves. -/
theorem topCities_sorted (t : Tables) (pl : Option (List String))
    (r : TopCitiesRow) (hr : r ∈ calculateProductSalesByCity t pl) :
    r.customer_city.length ≤ 3 ∧
    ∃ g : List CitySalesRow,
      r.customer_city = g.map (fun a => a.customer_city) ∧
      (∀ a ∈ g, a.product_id = r.product_id ∧
        a.sales_count = ((mergeOrdersCustomersItems t.orders t.customers
          t.order_items).filter
            (fun p => (p.2.2.product_id, p.2.1.customer_city) =
              (a.product_id, a.customer_city))).length) ∧
      g.Pairwise (fun a b => b.sales_count ≤ a.sales_count ∧
        (a.sales_count = b.sales_count →
          strLt a.customer_city b.customer_city = true)) := by
  simp only [calculateProductSalesByCity] at hr
  have hr2 := mem_of_mem_filterOnProductList _ _ _ _ hr
  rw [List.mem_map] at hr2
  obtain ⟨⟨k, g⟩, hkg, he⟩ := hr2
  rw [mem_listGroupBy] at hkg
  obtain ⟨hk, hg⟩ := hkg
  subst he
  dsimp only
  constructor
  · rw [List.length_map, hg, ← List.countP_eq_length_filter]
    exact headPerKey_countP 3 (fun q : CitySalesRow => q.product_id) k _
  · refine ⟨g, rfl, ?_, ?_⟩
    · intro a ha
      rw [hg, List.mem_filter] at ha
      obtain ⟨hatop, hak⟩ := ha
      refine ⟨by simpa using hak, ?_⟩
      have hasort := (headPerKey_sublist 3 _ _).subset hatop
      rw [mem_sSort] at hasort
      exact mem_productCitySales_count t a hasort
    · have hpcs := pairwise_productCitySales t
      have hsorted := pairwise_sSort_stable ltPidCountDesc
        (fun a b => ltStrStr (a.product_id, a.customer_city)
          (b.product_id, b.customer_city) = true)
        ltPidCountDesc_asymm ltPidCountDesc_neg_trans _ hpcs
      have htop3 := hsorted.sublist
        (headPerKey_sublist 3 (fun q => q.product_id) _)
      have hgsub : List.Sublist g (headPerKey 3 (fun q => q.product_id)
          (sSort ltPidCountDesc ((listGroupBy ltStrStr
            (fun p => (p.2.2.product_id, p.2.1.customer_city))
            (mergeOrdersCustomersItems t.orders t.customers
              t.order_items)).map
              (fun kg => (⟨kg.1.1, kg.1.2, kg.2.length⟩ : CitySalesRow))))) := by
        rw [hg]
        exact List.filter_sublist _
      have hgQ := htop3.sublist hgsub
      refine hgQ.imp_of_mem ?_
      intro a b ha hb hq
      have hpa : a.product_id = k := by
        rw [hg, List.mem_filter] at ha
        simpa using ha.2
      have hpb : b.product_id = k := by
        rw [hg, List.mem_filter] at hb
        simpa using hb.2
      have hpe : a.product_id = b.product_id := by rw [hpa, hpb]
      rcases hq with hlt | ⟨h1, h2, hr0⟩
      · rw [ltPidCountDesc_eq_true_iff] at hlt
        rcases hlt with hs | ⟨_, hc⟩
        · rw [hpe, strLt_irrefl] at hs
          simp at hs
        · exact ⟨le_of_lt hc, fun he2 => absurd hc (by omega)⟩
      · obtain ⟨hs1, hc1⟩ := ltPidCountDesc_false_parts a b h1
        obtain ⟨hs2, hc2⟩ := ltPidCountDesc_false_parts b a h2
        have hcc : a.sales_count = b.sales_count :=
          le_antisymm (hc1 hpe) (hc2 hpe.symm)
        refine ⟨le_of_eq hcc.symm, fun _ => ?_⟩
        rcases ltStrStr_pair_true _ _ _ _ hr0 with hs | ⟨_, hcy⟩
        · rw [hpe, strLt_irrefl] at hs
          simp at hs
        · exact hcy

/-- Witness for claim C4 at the scenario tables. -/
theorem topCities_sorted_witness :
    (⟨"p1", ["sp"]⟩ : TopCitiesRow) ∈ calculateProductSalesByCity exTables none ∧
    ((⟨"p1", ["sp"]⟩ : TopCitiesRow).customer_city.length ≤ 3 ∧
      ∃ g : List CitySalesRow,
        (⟨"p1", ["sp"]⟩ : TopCitiesRow).customer_city =
          g.map (fun a => a.customer_city) ∧
        (∀ a ∈ g, a.product_id = (⟨"p1", ["sp"]⟩ : TopCitiesRow).product_id ∧
          a.sales_count = ((mergeOrdersCustomersItems exTables.orders
            exTables.customers exTables.order_items).filter
              (fun p => (p.2.2.product_id, p.2.1.customer_city) =
                (a.product_id, a.customer_city))).length) ∧
        g.Pairwise (fun a b => b.sales_count ≤ a.sales_count ∧
          (a.sales_count = b.sales_count →
            strLt a.customer_city b.customer_city = true))) :=
  ⟨by decide, topCities_sorted exTables none ⟨"p1", ["sp"]⟩ (by decide)⟩

/-- Witness for claim C5 at the dates 2023-01-02 and 2023-01-08, which share
the week ending Sunday 2023-01-08. -/
theorem weekLabel_eq_iff_witness :
    ((⟨2023, 1, 2⟩ : Date).valid ∧ (⟨2023, 1, 8⟩ : Date).valid ∧
      (⟨2023, 1, 2⟩ : Date).year ≤ 9000 ∧ (⟨2023, 1, 8⟩ : Date).year ≤ 9000) ∧
    ((weekLabel ⟨2023, 1, 2⟩ = weekLabel ⟨2023, 1, 8⟩ ↔
      ∃ s, s % 7 = 4 ∧ daysFromCivil ⟨2023, 1, 2⟩ ≤ s ∧
        s < daysFromCivil ⟨2023, 1, 2⟩ + 7 ∧
        daysFromCivil ⟨2023, 1, 8⟩ ≤ s ∧ s < daysFromCivil ⟨2023, 1, 8⟩ + 7) ∧
      weekLabel ⟨2023, 1, 2⟩ =
        formatDate (civilFromDays (weekEndDay (daysFromCivil ⟨2023, 1, 2⟩)))) :=
  ⟨⟨by decide, by decide, by decide, by decide⟩,
    weekLabel_eq_iff ⟨2023, 1, 2⟩ ⟨2023, 1, 8⟩ (by decide) (by decide)
      (by decide) (by decide)⟩

end SalesETL
